import Mathlib

/-
Verification of the Xonix territory-claiming engine
(games/xonix/game.py): grid model, trail state machine,
flood-fill region claiming, and enemy bounce physics.

Conventions of the shallow embedding:
* The Python 2D list `self.grid` (accessed as `grid[y][x]`) is modelled as a
  total function `Grid := Int -> Int -> Cell`, applied as `g y x`; the item
  assignment `grid[y][x] = v` becomes the pointwise update `setCell`.
* Python floats (enemy coordinates, percentages) are modelled as exact
  rationals.
* The class constants GRID_WIDTH / GRID_HEIGHT are the parameters `W H`
  threaded through every definition (the source keeps them as class-level
  attributes; the shipped game instantiates W = 70, H = 50).
* The `while stack:` loop of flood_fill is modelled with an explicit fuel
  counter large enough to cover its worst case (proved below); the Lean list
  that models the Python stack has its head at the Python list's tail, the
  end `pop()` reads from.
-/

/-- Cell states, exactly the integer codes of the source. -/
abbrev Cell := Nat

def EMPTY : Cell := 0

def CLAIMED : Cell := 1

def BORDER : Cell := 2

def TRAIL : Cell := 3

/-- Pixel size of one grid cell (class constant GRID_SIZE). -/
def GRID_SIZE : Int := 10

/-- Win threshold (class constant TARGET_PERCENTAGE). -/
def TARGET_PERCENTAGE : ℚ := 75

/-- Enemy ball: continuous position, velocity, radius (class Enemy). -/
structure Enemy where
  x : ℚ
  y : ℚ
  vx : ℚ
  vy : ℚ
  radius : ℚ := 8
deriving DecidableEq

/-- The grid, `g y x` standing for the source's `grid[y][x]`. -/
abbrev Grid := Int → Int → Cell

/-- Mutable fields of XonixGame that the engine logic touches. -/
structure GameState where
  grid : Grid
  player_x : Int
  player_y : Int
  enemies : List Enemy
  trail : List (Int × Int)
  drawing : Bool
  score : ℚ
  game_over : Bool
  game_won : Bool
  message : String

/-- Direction of a requested move (one arrow key, given the elif chain of
handle_movement at most one direction applies per frame). -/
inductive Dir
  | up
  | down
  | left
  | right
deriving DecidableEq

/-- Pointwise update, the meaning of the assignment `grid[y][x] = v`. -/
def setCell (g : Grid) (x y : Int) (v : Cell) : Grid :=
  fun y' x' => if y' = y ∧ x' = x then v else g y' x'

/-- The bounds test `0 <= x < GRID_WIDTH and 0 <= y < GRID_HEIGHT`. -/
def inBounds (W H : Int) (x y : Int) : Prop :=
  0 ≤ x ∧ x < W ∧ 0 ≤ y ∧ y < H

instance (W H x y : Int) : Decidable (inBounds W H x y) := by
  unfold inBounds; infer_instance

/-- XonixGame.get_cell_state: stored state in bounds, BORDER sentinel
outside. -/
def get_cell_state (W H : Int) (g : Grid) (x y : Int) : Cell :=
  if inBounds W H x y then g y x else BORDER

/-- XonixGame.is_on_border_or_claimed. -/
def is_on_border_or_claimed (W H : Int) (g : Grid) (x y : Int) : Prop :=
  get_cell_state W H g x y = BORDER ∨ get_cell_state W H g x y = CLAIMED

instance (W H : Int) (g : Grid) (x y : Int) :
    Decidable (is_on_border_or_claimed W H g x y) := by
  unfold is_on_border_or_claimed; infer_instance

/-- The four neighbour pushes of flood_fill, in the order of the source's
delta list [(0, 1), (0, -1), (1, 0), (-1, 0)]. -/
def neighborList (x y : Int) : List (Int × Int) :=
  [(x, y + 1), (x, y - 1), (x + 1, y), (x - 1, y)]

/-- Body of flood_fill's `while stack:` loop. The Lean stack head models the
Python list end, so the four appended neighbours are pushed in reverse. -/
def floodFillAux (W H : Int) (g : Grid) :
    Nat → Finset (Int × Int) → List (Int × Int) → List (Int × Int) →
    List (Int × Int) × Finset (Int × Int)
  | 0, visited, _, area => (area, visited)
  | _ + 1, visited, [], area => (area, visited)
  | fuel + 1, visited, (x, y) :: rest, area =>
    if (x, y) ∈ visited then
      floodFillAux W H g fuel visited rest area
    else if ¬ inBounds W H x y then
      floodFillAux W H g fuel visited rest area
    else if g y x ≠ EMPTY then
      floodFillAux W H g fuel visited rest area
    else
      floodFillAux W H g fuel (insert (x, y) visited)
        ((neighborList x y).reverse ++ rest) (area ++ [(x, y)])

/-- Fuel covering the worst case of the flood-fill loop (each of the W * H
in-bounds cells is visited at most once, each visit pushes four frames). -/
def ffFuel (W H : Int) : Nat :=
  (5 * W * H + 5).toNat

/-- Quantized grid cell of an enemy, `int(enemy.x // GRID_SIZE)` (float
floor-division, hence the floor). -/
def enemyCell (e : Enemy) : Int × Int :=
  (⌊e.x / (GRID_SIZE : ℚ)⌋, ⌊e.y / (GRID_SIZE : ℚ)⌋)

/-- XonixGame.flood_fill: the collected area together with the
`has_enemy` test against the visited set. -/
def flood_fill (W H : Int) (g : Grid) (enemies : List Enemy)
    (start_x start_y : Int) : List (Int × Int) × Bool :=
  let r := floodFillAux W H g (ffFuel W H) ∅ [(start_x, start_y)] []
  (r.1, enemies.any fun e => decide (enemyCell e ∈ r.2))

/-- First loop of claim_territory: `for x, y in self.trail:
grid[y][x] = BORDER`. -/
def markTrail (g : Grid) (trail : List (Int × Int)) : Grid :=
  trail.foldl (fun gcur c => setCell gcur c.1 c.2 BORDER) g

/-- Inner claiming loop: `for ax, ay in area: grid[ay][ax] = CLAIMED`. -/
def claimArea (g : Grid) (area : List (Int × Int)) : Grid :=
  area.foldl (fun gcur c => setCell gcur c.1 c.2 CLAIMED) g

/-- Integer range [lo, hi) as a list, the meaning of `range(lo, hi)`. -/
def intRange (lo hi : Int) : List Int :=
  (List.range (hi - lo).toNat).map fun i : Nat => lo + (i : Int)

/-- Row-major interior scan order of claim_territory and
calculate_percentage: `for y in range(1, H - 1): for x in range(1, W - 1)`,
as (x, y) pairs. -/
def interiorCoords (W H : Int) : List (Int × Int) :=
  (intRange 1 (H - 1)).flatMap fun y => (intRange 1 (W - 1)).map fun x => (x, y)

/-- Scanning loop of claim_territory, threading the grid through the listed
coordinates.  Alongside the grid it returns, as specification
instrumentation, the log of every flood-fill call made by the pass: the
collected area and its has_enemy flag, in scan order. -/
def claimScan (W H : Int) (enemies : List Enemy) :
    Grid → List (Int × Int) → Grid × List (List (Int × Int) × Bool)
  | g, [] => (g, [])
  | g, p :: ps =>
    if g p.2 p.1 = EMPTY then
      let r := flood_fill W H g enemies p.1 p.2
      if r.2 = false ∧ r.1 ≠ [] then
        let rest := claimScan W H enemies (claimArea g r.1) ps
        (rest.1, r :: rest.2)
      else
        let rest := claimScan W H enemies g ps
        (rest.1, r :: rest.2)
    else claimScan W H enemies g ps

/-- XonixGame.claim_territory, acting on the grid: mark the trail as BORDER,
then scan all interior cells and claim every enemy-free empty region. -/
def claim_territory (W H : Int) (g : Grid) (trail : List (Int × Int))
    (enemies : List Enemy) : Grid :=
  (claimScan W H enemies (markTrail g trail) (interiorCoords W H)).1

/-- XonixGame.calculate_percentage. -/
def calculate_percentage (W H : Int) (g : Grid) : ℚ :=
  let total : Int := (W - 2) * (H - 2)
  let claimed : Nat :=
    (interiorCoords W H).countP fun p =>
      decide (g p.2 p.1 = CLAIMED ∨ g p.2 p.1 = BORDER)
  if 0 < total then (claimed : ℚ) / (total : ℚ) * 100 else 0

/-- XonixGame._process_movement: the elif chain on an in-bounds
destination. -/
def process_movement (W H : Int) (s : GameState) (new_x new_y : Int) :
    GameState :=
  let cell_state := get_cell_state W H s.grid new_x new_y
  if s.drawing = false ∧ cell_state = EMPTY then
    { s with drawing := true, trail := [(new_x, new_y)],
             player_x := new_x, player_y := new_y }
  else if s.drawing = true ∧ (new_x, new_y) ∈ s.trail then
    { s with game_over := true, message := "Hit your own trail!" }
  else if s.drawing = true ∧ is_on_border_or_claimed W H s.grid new_x new_y then
    let g2 := claim_territory W H s.grid s.trail s.enemies
    let sc := calculate_percentage W H g2
    if TARGET_PERCENTAGE ≤ sc then
      { s with drawing := false, grid := g2, trail := [],
               player_x := new_x, player_y := new_y, score := sc,
               game_won := true, message := "Victory!" }
    else
      { s with drawing := false, grid := g2, trail := [],
               player_x := new_x, player_y := new_y, score := sc }
  else if s.drawing = true ∧ cell_state = EMPTY then
    { s with trail := s.trail ++ [(new_x, new_y)],
             player_x := new_x, player_y := new_y }
  else if s.drawing = false then
    { s with player_x := new_x, player_y := new_y }
  else s

/-- Destination cell of one arrow-key press. -/
def destCoord (s : GameState) : Dir → Int × Int
  | .up => (s.player_x, s.player_y - 1)
  | .down => (s.player_x, s.player_y + 1)
  | .left => (s.player_x - 1, s.player_y)
  | .right => (s.player_x + 1, s.player_y)

/-- XonixGame.handle_movement: early return in a terminal state, bounds
check, then _process_movement.  The pressed key (if any) is the input. -/
def handle_movement (W H : Int) (s : GameState) (key : Option Dir) :
    GameState :=
  if s.game_over = true ∨ s.game_won = true then s
  else
    match key with
    | none => s
    | some d =>
      let p := destCoord s d
      if inBounds W H p.1 p.2 then process_movement W H s p.1 p.2 else s

/-- Per-enemy body of XonixGame.update_enemies: advance by velocity, then
the two independent per-axis bounce tests against world edges and the
quantized grid cell (computed once, after the move, before any nudge). -/
def stepEnemy (W H : Int) (g : Grid) (e : Enemy) : Enemy :=
  let x1 := e.x + e.vx
  let y1 := e.y + e.vy
  let ex : Int := ⌊x1 / (GRID_SIZE : ℚ)⌋
  let ey : Int := ⌊y1 / (GRID_SIZE : ℚ)⌋
  let cellSolid : Prop :=
    inBounds W H ex ey ∧ (g ey ex = BORDER ∨ g ey ex = CLAIMED)
  let bounceX : Prop :=
    x1 ≤ e.radius ∨ ((GRID_SIZE * W : Int) : ℚ) - e.radius ≤ x1 ∨ cellSolid
  let bounceY : Prop :=
    y1 ≤ e.radius ∨ ((H * GRID_SIZE : Int) : ℚ) - e.radius ≤ y1 ∨ cellSolid
  { x := if bounceX then x1 + -e.vx * 2 else x1
    y := if bounceY then y1 + -e.vy * 2 else y1
    vx := if bounceX then -e.vx else e.vx
    vy := if bounceY then -e.vy else e.vy
    radius := e.radius }

/-- XonixGame._enemy_hits_trail. -/
def enemyHitsTrail (trail : List (Int × Int)) (e : Enemy) : Bool :=
  trail.any fun t =>
    decide ((e.x - t.1 * GRID_SIZE) ^ 2 + (e.y - t.2 * GRID_SIZE) ^ 2 <
      (e.radius + (GRID_SIZE / 2 : Int)) ^ 2)

/-- XonixGame._enemy_hits_player. -/
def enemyHitsPlayer (px py : Int) (e : Enemy) : Bool :=
  decide ((e.x - px * GRID_SIZE) ^ 2 + (e.y - py * GRID_SIZE) ^ 2 <
    (e.radius + (GRID_SIZE / 2 : Int)) ^ 2)

/-- Loop of XonixGame.update_enemies over the enemy list: each enemy is
stepped; a trail hit records its message and breaks (later enemies are left
unmoved), a player hit records its message and continues (a later message
overwrites it).  Returns the updated enemies and the last terminal message
if any hit occurred. -/
def updateEnemiesAux (W H : Int) (g : Grid) (trail : List (Int × Int))
    (drawing : Bool) (px py : Int) :
    List Enemy → List Enemy × Option String
  | [] => ([], none)
  | e :: rest =>
    let e2 := stepEnemy W H g e
    if drawing = true ∧ enemyHitsTrail trail e2 = true then
      (e2 :: rest, some "Enemy hit your trail!")
    else if drawing = true ∧ enemyHitsPlayer px py e2 = true then
      let r := updateEnemiesAux W H g trail drawing px py rest
      (e2 :: r.1, some (r.2.getD "Enemy hit you!"))
    else
      let r := updateEnemiesAux W H g trail drawing px py rest
      (e2 :: r.1, r.2)

/-- XonixGame.update_enemies. -/
def update_enemies (W H : Int) (s : GameState) : GameState :=
  let r := updateEnemiesAux W H s.grid s.trail s.drawing s.player_x
    s.player_y s.enemies
  { s with enemies := r.1,
           game_over := s.game_over || r.2.isSome,
           message := r.2.getD s.message }

/-- The grid built by reset_game_state: all EMPTY, then the outer ring set
to BORDER. -/
def initialGrid (W H : Int) : Grid :=
  fun y x =>
    if y = 0 ∨ y = H - 1 ∨ x = 0 ∨ x = W - 1 then BORDER else EMPTY

/-- XonixGame.reset_game_state; the randomly placed enemies are the
parameter. -/
def reset_game_state (W H : Int) (es : List Enemy) : GameState :=
  { grid := initialGrid W H
    player_x := W / 2
    player_y := 0
    enemies := es
    trail := []
    drawing := false
    score := 0
    game_over := false
    game_won := false
    message := "" }

/-- States reachable by the run loop: reset, per-frame movement handling,
the enemy update (run only while the session is active), and the SPACE
restart from a terminal state. -/
inductive Reachable (W H : Int) : GameState → Prop
  | init (es : List Enemy) : Reachable W H (reset_game_state W H es)
  | move (s : GameState) (key : Option Dir) : Reachable W H s →
      Reachable W H (handle_movement W H s key)
  | tick (s : GameState) : Reachable W H s → s.game_over = false →
      s.game_won = false → Reachable W H (update_enemies W H s)
  | reset (s : GameState) (es : List Enemy) : Reachable W H s →
      (s.game_over = true ∨ s.game_won = true) →
      Reachable W H (reset_game_state W H es)

/-! ## Specification-side notions: empty cells, 4-connectivity, regions -/

/-- In-bounds cell whose stored state is EMPTY. -/
def emptyCellP (W H : Int) (g : Grid) (c : Int × Int) : Prop :=
  inBounds W H c.1 c.2 ∧ g c.2 c.1 = EMPTY

instance (W H : Int) (g : Grid) (c : Int × Int) :
    Decidable (emptyCellP W H g c) := by
  unfold emptyCellP; infer_instance

/-- One step of 4-connectivity inside the empty cells of a grid. -/
def stepE (W H : Int) (g : Grid) (a b : Int × Int) : Prop :=
  emptyCellP W H g a ∧ emptyCellP W H g b ∧ b ∈ neighborList a.1 a.2

/-- Reachability through empty cells (reflexive-transitive closure). -/
def ReachE (W H : Int) (g : Grid) : Int × Int → Int × Int → Prop :=
  Relation.ReflTransGen (stepE W H g)

/-- Membership in the 4-connected empty region of a seed cell. -/
def compMem (W H : Int) (g : Grid) (s c : Int × Int) : Prop :=
  emptyCellP W H g s ∧ ReachE W H g s c

/-- A maximal 4-connected region of empty cells: nonempty, all cells empty,
closed under empty 4-neighbours, and 4-connected. -/
def isRegion (W H : Int) (g : Grid) (R : Finset (Int × Int)) : Prop :=
  R.Nonempty ∧
  (∀ c ∈ R, emptyCellP W H g c) ∧
  (∀ c ∈ R, ∀ d ∈ neighborList c.1 c.2, emptyCellP W H g d → d ∈ R) ∧
  (∀ c ∈ R, ∀ d ∈ R, ReachE W H g c d)

/-- Cells of the permanent outer ring. -/
def ringCells (W H : Int) : Finset (Int × Int) :=
  (Finset.Ico 0 W ×ˢ Finset.Ico 0 H).filter
    fun c => c.1 = 0 ∨ c.1 = W - 1 ∨ c.2 = 0 ∨ c.2 = H - 1

/-- Interior cells (the board minus the permanent outer ring), as pairs
(x, y). -/
def interiorFinset (W H : Int) : Finset (Int × Int) :=
  Finset.Ico 1 (W - 1) ×ˢ Finset.Ico 1 (H - 1)

/-- Claimed-or-border count among interior cells, as the specification
words it. -/
def specClaimedCount (W H : Int) (g : Grid) : ℕ :=
  ((interiorFinset W H).filter
    fun c => g c.2 c.1 = CLAIMED ∨ g c.2 c.1 = BORDER).card

/-! ## Basic lemmas about the grid primitives -/

theorem setCell_same (g : Grid) (x y : Int) (v : Cell) :
    setCell g x y v y x = v := by
  simp [setCell]

theorem setCell_other (g : Grid) (x y : Int) (v : Cell) (y' x' : Int)
    (h : ¬ (y' = y ∧ x' = x)) : setCell g x y v y' x' = g y' x' := by
  simp [setCell, h]

theorem setCell_val (g : Grid) (x y : Int) (v : Cell) (y' x' : Int) :
    setCell g x y v y' x' = v ∨ setCell g x y v y' x' = g y' x' := by
  unfold setCell
  split <;> simp

theorem markTrail_nil (g : Grid) : markTrail g [] = g := rfl

theorem markTrail_cons (g : Grid) (t : Int × Int) (ts : List (Int × Int)) :
    markTrail g (t :: ts) = markTrail (setCell g t.1 t.2 BORDER) ts := rfl

theorem claimArea_nil (g : Grid) : claimArea g [] = g := rfl

theorem claimArea_cons (g : Grid) (t : Int × Int) (ts : List (Int × Int)) :
    claimArea g (t :: ts) = claimArea (setCell g t.1 t.2 CLAIMED) ts := rfl

/-- Every cell of markTrail's result is either the original value or
BORDER. -/
theorem markTrail_val (trail : List (Int × Int)) (g : Grid) (y x : Int) :
    markTrail g trail y x = g y x ∨ markTrail g trail y x = BORDER := by
  induction trail generalizing g with
  | nil => exact Or.inl rfl
  | cons t ts ih =>
    rw [markTrail_cons]
    rcases ih (setCell g t.1 t.2 BORDER) with h | h
    · rcases setCell_val g t.1 t.2 BORDER y x with h2 | h2
      · exact Or.inr (h.trans h2)
      · exact Or.inl (h.trans h2)
    · exact Or.inr h

/-- A cell already holding BORDER keeps it through markTrail. -/
theorem markTrail_border (trail : List (Int × Int)) (g : Grid) (y x : Int)
    (h : g y x = BORDER) : markTrail g trail y x = BORDER := by
  induction trail generalizing g with
  | nil => exact h
  | cons t ts ih =>
    rw [markTrail_cons]
    refine ih (setCell g t.1 t.2 BORDER) ?_
    rcases setCell_val g t.1 t.2 BORDER y x with h2 | h2
    · exact h2
    · exact h2.trans h

/-- Every trail cell is BORDER after markTrail. -/
theorem markTrail_mem (trail : List (Int × Int)) (g : Grid) (c : Int × Int)
    (h : c ∈ trail) : markTrail g trail c.2 c.1 = BORDER := by
  induction trail generalizing g with
  | nil => cases h
  | cons t ts ih =>
    rw [markTrail_cons]
    rcases List.mem_cons.mp h with rfl | h
    · by_cases hm : c ∈ ts
      · exact ih (setCell g c.1 c.2 BORDER) hm
      · exact markTrail_border ts _ c.2 c.1 (setCell_same _ _ _ _)
    · exact ih _ h

/-- A cell not rewritten by markTrail keeps its value. -/
theorem markTrail_not_mem (trail : List (Int × Int)) (g : Grid)
    (c : Int × Int) (h : c ∉ trail) : markTrail g trail c.2 c.1 = g c.2 c.1 := by
  induction trail generalizing g with
  | nil => rfl
  | cons t ts ih =>
    rw [markTrail_cons]
    rw [ih (setCell g t.1 t.2 BORDER) (fun hm => h (List.mem_cons_of_mem _ hm))]
    refine setCell_other g t.1 t.2 BORDER c.2 c.1 ?_
    rintro ⟨h2, h1⟩
    exact h (by simp [Prod.ext_iff, h1, h2])

/-- Every cell of claimArea's result is either the original value or
CLAIMED. -/
theorem claimArea_val (area : List (Int × Int)) (g : Grid) (y x : Int) :
    claimArea g area y x = g y x ∨ claimArea g area y x = CLAIMED := by
  induction area generalizing g with
  | nil => exact Or.inl rfl
  | cons t ts ih =>
    rw [claimArea_cons]
    rcases ih (setCell g t.1 t.2 CLAIMED) with h | h
    · rcases setCell_val g t.1 t.2 CLAIMED y x with h2 | h2
      · exact Or.inr (h.trans h2)
      · exact Or.inl (h.trans h2)
    · exact Or.inr h

/-- A cell already holding CLAIMED keeps it through claimArea. -/
theorem claimArea_claimed (area : List (Int × Int)) (g : Grid) (y x : Int)
    (h : g y x = CLAIMED) : claimArea g area y x = CLAIMED := by
  induction area generalizing g with
  | nil => exact h
  | cons t ts ih =>
    rw [claimArea_cons]
    refine ih (setCell g t.1 t.2 CLAIMED) ?_
    rcases setCell_val g t.1 t.2 CLAIMED y x with h2 | h2
    · exact h2
    · exact h2.trans h

/-- Every cell of the claimed area is CLAIMED after claimArea. -/
theorem claimArea_mem (area : List (Int × Int)) (g : Grid) (c : Int × Int)
    (h : c ∈ area) : claimArea g area c.2 c.1 = CLAIMED := by
  induction area generalizing g with
  | nil => cases h
  | cons t ts ih =>
    rw [claimArea_cons]
    rcases List.mem_cons.mp h with rfl | h
    · by_cases hm : c ∈ ts
      · exact ih (setCell g c.1 c.2 CLAIMED) hm
      · exact claimArea_claimed ts _ c.2 c.1 (setCell_same _ _ _ _)
    · exact ih _ h

/-- A cell outside the claimed area keeps its value. -/
theorem claimArea_not_mem (area : List (Int × Int)) (g : Grid)
    (c : Int × Int) (h : c ∉ area) : claimArea g area c.2 c.1 = g c.2 c.1 := by
  induction area generalizing g with
  | nil => rfl
  | cons t ts ih =>
    rw [claimArea_cons]
    rw [ih (setCell g t.1 t.2 CLAIMED) (fun hm => h (List.mem_cons_of_mem _ hm))]
    refine setCell_other g t.1 t.2 CLAIMED c.2 c.1 ?_
    rintro ⟨h2, h1⟩
    exact h (by simp [Prod.ext_iff, h1, h2])

/-- Membership description of intRange. -/
theorem mem_intRange (lo hi a : Int) :
    a ∈ intRange lo hi ↔ lo ≤ a ∧ a < hi := by
  unfold intRange
  simp only [List.mem_map, List.mem_range]
  constructor
  · rintro ⟨i, hi, rfl⟩
    omega
  · rintro ⟨h1, h2⟩
    exact ⟨(a - lo).toNat, by omega, by omega⟩

/-- Membership description of the interior scan order. -/
theorem mem_interiorCoords (W H : Int) (p : Int × Int) :
    p ∈ interiorCoords W H ↔ 1 ≤ p.1 ∧ p.1 < W - 1 ∧ 1 ≤ p.2 ∧ p.2 < H - 1 := by
  unfold interiorCoords
  simp only [List.mem_flatMap, List.mem_map, mem_intRange]
  constructor
  · rintro ⟨y, ⟨hy1, hy2⟩, x, ⟨hx1, hx2⟩, rfl⟩
    exact ⟨hx1, hx2, hy1, hy2⟩
  · rintro ⟨h1, h2, h3, h4⟩
    exact ⟨p.2, ⟨h3, h4⟩, p.1, ⟨h1, h2⟩, rfl⟩

/-! ## C5: border sentinel for out-of-range queries -/

/-- C5: for every coordinate outside the grid bounds (x < 0, x >= width,
y < 0, or y >= height) the cell-state query returns Border, so no grid read
can fail on an out-of-range index; for every in-bounds coordinate it
returns the stored cell state. -/
theorem claim_C5_border_sentinel (W H : Int) (g : Grid) (x y : Int) :
    ((x < 0 ∨ W ≤ x ∨ y < 0 ∨ H ≤ y) → get_cell_state W H g x y = BORDER) ∧
    (inBounds W H x y → get_cell_state W H g x y = g y x) := by
  constructor
  · intro h
    unfold get_cell_state
    rw [if_neg]
    unfold inBounds
    omega
  · intro h
    unfold get_cell_state
    rw [if_pos h]

/-- Witness for C5 at a concrete out-of-range and a concrete in-bounds
coordinate of the shipped 70 x 50 board. -/
theorem claim_C5_border_sentinel_witness :
    get_cell_state 70 50 (initialGrid 70 50) (-1) 7 = BORDER ∧
    get_cell_state 70 50 (initialGrid 70 50) 3 7 = initialGrid 70 50 7 3 :=
  ⟨(claim_C5_border_sentinel 70 50 (initialGrid 70 50) (-1) 7).1
      (by decide),
   (claim_C5_border_sentinel 70 50 (initialGrid 70 50) 3 7).2
      (by decide)⟩

/-! ## C7: per-axis enemy bounce -/

/-- C7: on each enemy-simulation step, after position is advanced by
velocity, the x-velocity is reversed exactly when the advanced x position is
within the radius of the left or right world edge or the quantized grid
cell is Border or Claimed; the y-velocity is reversed under the analogous
per-axis condition with the same cell test; after each reversal the
position coordinate is nudged by twice the now-reversed per-axis
velocity. -/
theorem claim_C7_enemy_bounce (W H : Int) (g : Grid) (e : Enemy) :
    (stepEnemy W H g e).vx =
      (if e.x + e.vx ≤ e.radius ∨
          ((GRID_SIZE * W : Int) : ℚ) - e.radius ≤ e.x + e.vx ∨
          (inBounds W H ⌊(e.x + e.vx) / (GRID_SIZE : ℚ)⌋
             ⌊(e.y + e.vy) / (GRID_SIZE : ℚ)⌋ ∧
           (g ⌊(e.y + e.vy) / (GRID_SIZE : ℚ)⌋
              ⌊(e.x + e.vx) / (GRID_SIZE : ℚ)⌋ = BORDER ∨
            g ⌊(e.y + e.vy) / (GRID_SIZE : ℚ)⌋
              ⌊(e.x + e.vx) / (GRID_SIZE : ℚ)⌋ = CLAIMED))
       then -e.vx else e.vx) ∧
    (stepEnemy W H g e).x =
      (if e.x + e.vx ≤ e.radius ∨
          ((GRID_SIZE * W : Int) : ℚ) - e.radius ≤ e.x + e.vx ∨
          (inBounds W H ⌊(e.x + e.vx) / (GRID_SIZE : ℚ)⌋
             ⌊(e.y + e.vy) / (GRID_SIZE : ℚ)⌋ ∧
           (g ⌊(e.y + e.vy) / (GRID_SIZE : ℚ)⌋
              ⌊(e.x + e.vx) / (GRID_SIZE : ℚ)⌋ = BORDER ∨
            g ⌊(e.y + e.vy) / (GRID_SIZE : ℚ)⌋
              ⌊(e.x + e.vx) / (GRID_SIZE : ℚ)⌋ = CLAIMED))
       then e.x + e.vx + (stepEnemy W H g e).vx * 2 else e.x + e.vx) ∧
    (stepEnemy W H g e).vy =
      (if e.y + e.vy ≤ e.radius ∨
          ((H * GRID_SIZE : Int) : ℚ) - e.radius ≤ e.y + e.vy ∨
          (inBounds W H ⌊(e.x + e.vx) / (GRID_SIZE : ℚ)⌋
             ⌊(e.y + e.vy) / (GRID_SIZE : ℚ)⌋ ∧
           (g ⌊(e.y + e.vy) / (GRID_SIZE : ℚ)⌋
              ⌊(e.x + e.vx) / (GRID_SIZE : ℚ)⌋ = BORDER ∨
            g ⌊(e.y + e.vy) / (GRID_SIZE : ℚ)⌋
              ⌊(e.x + e.vx) / (GRID_SIZE : ℚ)⌋ = CLAIMED))
       then -e.vy else e.vy) ∧
    (stepEnemy W H g e).y =
      (if e.y + e.vy ≤ e.radius ∨
          ((H * GRID_SIZE : Int) : ℚ) - e.radius ≤ e.y + e.vy ∨
          (inBounds W H ⌊(e.x + e.vx) / (GRID_SIZE : ℚ)⌋
             ⌊(e.y + e.vy) / (GRID_SIZE : ℚ)⌋ ∧
           (g ⌊(e.y + e.vy) / (GRID_SIZE : ℚ)⌋
              ⌊(e.x + e.vx) / (GRID_SIZE : ℚ)⌋ = BORDER ∨
            g ⌊(e.y + e.vy) / (GRID_SIZE : ℚ)⌋
              ⌊(e.x + e.vx) / (GRID_SIZE : ℚ)⌋ = CLAIMED))
       then e.y + e.vy + (stepEnemy W H g e).vy * 2 else e.y + e.vy) := by
  unfold stepEnemy
  refine ⟨rfl, ?_, rfl, ?_⟩ <;>
    · simp only []
      split <;> ring

/-! ## C8: out-of-board and terminal-state moves are ignored -/

/-- C8: a requested move whose destination lies outside the board, and any
move issued while the session is terminal (Lost or Won), is silently
ignored: handle_movement returns the state unchanged. -/
theorem claim_C8_invalid_moves_ignored (W H : Int) (s : GameState) (d : Dir)
    (h : s.game_over = true ∨ s.game_won = true ∨
      ¬ inBounds W H (destCoord s d).1 (destCoord s d).2) :
    handle_movement W H s (some d) = s := by
  unfold handle_movement
  by_cases ht : s.game_over = true ∨ s.game_won = true
  · rw [if_pos ht]
  · rw [if_neg ht]
    have hb : ¬ inBounds W H (destCoord s d).1 (destCoord s d).2 := by
      rcases h with h | h | h
      · exact absurd (Or.inl h) ht
      · exact absurd (Or.inr h) ht
      · exact h
    simp only [hb, if_neg, if_false]

/-- Concrete terminal state used by the C8 witness. -/
def termState : GameState :=
  { grid := initialGrid 6 5
    player_x := 3
    player_y := 0
    enemies := []
    trail := []
    drawing := false
    score := 0
    game_over := true
    game_won := false
    message := "Hit your own trail!" }

/-- Witness for C8: a move in a Lost state is a no-op. -/
theorem claim_C8_invalid_moves_ignored_witness :
    handle_movement 6 5 termState (some Dir.up) = termState :=
  claim_C8_invalid_moves_ignored 6 5 termState Dir.up (Or.inl rfl)

/-! ## C4: self-intersection while drawing -/

/-- C4: from a Drawing state, a move whose in-bounds destination is already
in the current trail transitions to Lost with the self-intersection message
recorded, leaving the player position, the trail and every grid cell
unchanged. -/
theorem claim_C4_self_hit_freezes (W H : Int) (s : GameState) (d : Dir)
    (hover : s.game_over = false) (hwon : s.game_won = false)
    (hdraw : s.drawing = true)
    (hb : inBounds W H (destCoord s d).1 (destCoord s d).2)
    (ht : destCoord s d ∈ s.trail) :
    handle_movement W H s (some d) =
      { s with game_over := true, message := "Hit your own trail!" } := by
  unfold handle_movement
  rw [if_neg (by simp [hover, hwon])]
  simp only [hb, if_true, if_pos]
  unfold process_movement
  rw [if_neg (by simp [hdraw])]
  rw [if_pos ⟨hdraw, by simpa using ht⟩]

/-- Concrete drawing state used by the C4 witness. -/
def drawState : GameState :=
  { grid := initialGrid 6 5
    player_x := 2
    player_y := 2
    enemies := []
    trail := [(2, 2), (3, 2)]
    drawing := true
    score := 0
    game_over := false
    game_won := false
    message := "" }

/-- Witness for C4: stepping right from (2,2) onto the trail cell (3,2)
turns game_over on and changes nothing else. -/
theorem claim_C4_self_hit_freezes_witness :
    handle_movement 6 5 drawState (some Dir.right) =
      { drawState with game_over := true, message := "Hit your own trail!" } :=
  claim_C4_self_hit_freezes 6 5 drawState Dir.right rfl rfl rfl
    (by decide) (by decide)

/-! ## C2: trail closure claims, clears, moves, then checks the win -/

/-- C2: from a Drawing state, a move whose in-bounds destination cell is
Border or Claimed (and not in the trail) leaves the drawing state, runs the
full claiming pass, clears the trail, moves the player to the destination
and recomputes the percentage on the post-claim grid; the session becomes
Won exactly when that recomputed percentage reaches the 75 threshold, so
the territory of the closing move is in the grid at the moment of
winning. -/
theorem claim_C2_closure_transition (W H : Int) (s : GameState) (d : Dir)
    (hover : s.game_over = false) (hwon : s.game_won = false)
    (hdraw : s.drawing = true)
    (hb : inBounds W H (destCoord s d).1 (destCoord s d).2)
    (ht : destCoord s d ∉ s.trail)
    (hbc : is_on_border_or_claimed W H s.grid (destCoord s d).1
      (destCoord s d).2) :
    handle_movement W H s (some d) =
      { s with
          drawing := false
          grid := claim_territory W H s.grid s.trail s.enemies
          trail := []
          player_x := (destCoord s d).1
          player_y := (destCoord s d).2
          score := calculate_percentage W H
            (claim_territory W H s.grid s.trail s.enemies)
          game_won := decide (TARGET_PERCENTAGE ≤ calculate_percentage W H
            (claim_territory W H s.grid s.trail s.enemies))
          message := if TARGET_PERCENTAGE ≤ calculate_percentage W H
              (claim_territory W H s.grid s.trail s.enemies)
            then "Victory!" else s.message } := by
  unfold handle_movement
  rw [if_neg (by simp [hover, hwon])]
  simp only [hb, if_true, if_pos]
  unfold process_movement
  rw [if_neg (by simp [hdraw])]
  rw [if_neg (by simpa [hdraw] using ht)]
  rw [if_pos ⟨hdraw, hbc⟩]
  by_cases hw : TARGET_PERCENTAGE ≤ calculate_percentage W H
      (claim_territory W H s.grid s.trail s.enemies)
  · rw [if_pos hw]
    simp [hw]
  · rw [if_neg hw]
    simp only [decide_eq_true_eq, if_neg hw]
    have : decide (TARGET_PERCENTAGE ≤ calculate_percentage W H
        (claim_territory W H s.grid s.trail s.enemies)) = false :=
      decide_eq_false hw
    rw [this, ← hwon]

/-- Concrete closing state for the C2 witness: a 6 x 5 board whose interior
is claimed except the single trail cell (2,2); moving up from it lands on
the claimed cell (2,1). -/
def closeState : GameState :=
  { grid := fun y x =>
      if y = 0 ∨ y = 4 ∨ x = 0 ∨ x = 5 then BORDER
      else if y = 2 ∧ x = 2 then EMPTY else CLAIMED
    player_x := 2
    player_y := 2
    enemies := []
    trail := [(2, 2)]
    drawing := true
    score := 0
    game_over := false
    game_won := false
    message := "" }

/-- Witness for C2 at the concrete closing state. -/
theorem claim_C2_closure_transition_witness :
    handle_movement 6 5 closeState (some Dir.up) =
      { closeState with
          drawing := false
          grid := claim_territory 6 5 closeState.grid closeState.trail
            closeState.enemies
          trail := []
          player_x := 2
          player_y := 1
          score := calculate_percentage 6 5
            (claim_territory 6 5 closeState.grid closeState.trail
              closeState.enemies)
          game_won := decide (TARGET_PERCENTAGE ≤ calculate_percentage 6 5
            (claim_territory 6 5 closeState.grid closeState.trail
              closeState.enemies))
          message := if TARGET_PERCENTAGE ≤ calculate_percentage 6 5
              (claim_territory 6 5 closeState.grid closeState.trail
                closeState.enemies)
            then "Victory!" else closeState.message } :=
  claim_C2_closure_transition 6 5 closeState Dir.up rfl rfl rfl
    (by decide) (by decide) (by decide)

/-! ## Counting machinery for the percentage claims -/

theorem intRange_length (lo hi : Int) :
    (intRange lo hi).length = (hi - lo).toNat := by
  unfold intRange
  rw [List.length_map, List.length_range]

theorem intRange_nodup (lo hi : Int) : (intRange lo hi).Nodup := by
  unfold intRange
  refine List.Nodup.map ?_ (List.nodup_range _)
  intro a b h
  have h2 : lo + (a : Int) = lo + (b : Int) := h
  omega

theorem interiorCoords_nodup (W H : Int) : (interiorCoords W H).Nodup := by
  unfold interiorCoords
  rw [List.nodup_flatMap]
  constructor
  · intro y _
    refine List.Nodup.map ?_ (intRange_nodup 1 (W - 1))
    intro a b h
    exact (Prod.mk.injEq a y b y).mp h |>.1
  · refine List.Pairwise.imp ?_ (intRange_nodup 1 (H - 1))
    intro y1 y2 hne p hp1 hp2
    simp only [List.mem_map] at hp1 hp2
    obtain ⟨x1, _, rfl⟩ := hp1
    obtain ⟨x2, _, h⟩ := hp2
    exact hne ((Prod.mk.injEq x2 y2 x1 y1).mp h).2.symm

theorem interiorCoords_toFinset (W H : Int) :
    (interiorCoords W H).toFinset = interiorFinset W H := by
  ext p
  rw [List.mem_toFinset, mem_interiorCoords]
  unfold interiorFinset
  rw [Finset.mem_product, Finset.mem_Ico, Finset.mem_Ico]
  tauto

theorem sum_map_const (l : List Int) (c : Nat) :
    (l.map fun _ => c).sum = l.length * c := by
  induction l with
  | nil => simp
  | cons a t ih =>
    simp only [List.map_cons, List.sum_cons, List.length_cons, ih]
    ring

theorem interiorCoords_length (W H : Int) :
    (interiorCoords W H).length = (H - 2).toNat * (W - 2).toNat := by
  unfold interiorCoords
  rw [List.length_flatMap]
  simp only [Function.comp_def, List.length_map, intRange_length]
  rw [sum_map_const, intRange_length]
  have e1 : H - 1 - 1 = H - 2 := by ring
  have e2 : W - 1 - 1 = W - 2 := by ring
  rw [e1, e2]

/-- The interior claimed-count of the source never exceeds the interior
size, as integers, whenever the interior is non-degenerate. -/
theorem claimedCount_le_total (W H : Int) (p : Int × Int → Bool)
    (hpos : 0 < (W - 2) * (H - 2)) :
    (((interiorCoords W H).countP p : Int)) ≤ (W - 2) * (H - 2) := by
  have hle : (interiorCoords W H).countP p ≤ (interiorCoords W H).length :=
    List.countP_le_length p
  rw [interiorCoords_length] at hle
  by_cases hWH : 2 ≤ W ∧ 2 ≤ H
  · calc (((interiorCoords W H).countP p : Int))
        ≤ (((H - 2).toNat * (W - 2).toNat : Nat) : Int) := by exact_mod_cast hle
      _ = (W - 2) * (H - 2) := by
          push_cast
          rw [Int.toNat_of_nonneg (by omega), Int.toNat_of_nonneg (by omega)]
          ring
  · have h0 : (H - 2).toNat * (W - 2).toNat = 0 := by
      rcases not_and_or.mp hWH with h | h
      · exact Nat.mul_eq_zero.mpr (Or.inr (by omega))
      · exact Nat.mul_eq_zero.mpr (Or.inl (by omega))
    rw [h0] at hle
    rw [Nat.le_zero.mp hle]
    exact_mod_cast le_of_lt hpos

/-! ## Value range of the claiming pass -/

/-- The scan of claim_territory only ever writes CLAIMED. -/
theorem claimScan_grid_val (W H : Int) (enemies : List Enemy) :
    ∀ (coords : List (Int × Int)) (g : Grid) (y x : Int),
      (claimScan W H enemies g coords).1 y x = g y x ∨
      (claimScan W H enemies g coords).1 y x = CLAIMED := by
  intro coords
  induction coords with
  | nil => exact fun g y x => Or.inl rfl
  | cons p ps ih =>
    intro g y x
    simp only [claimScan]
    split
    · split
      · rcases ih (claimArea g (flood_fill W H g enemies p.1 p.2).1) y x with
          h | h
        · rcases claimArea_val (flood_fill W H g enemies p.1 p.2).1 g y x with
            h2 | h2
          · exact Or.inl (h.trans h2)
          · exact Or.inr (h.trans h2)
        · exact Or.inr h
      · exact ih g y x
    · exact ih g y x

/-- claim_territory only ever writes CLAIMED or BORDER over the original
grid. -/
theorem claim_territory_val (W H : Int) (g : Grid) (trail : List (Int × Int))
    (enemies : List Enemy) (y x : Int) :
    claim_territory W H g trail enemies y x = g y x ∨
    claim_territory W H g trail enemies y x = CLAIMED ∨
    claim_territory W H g trail enemies y x = BORDER := by
  unfold claim_territory
  rcases claimScan_grid_val W H enemies (interiorCoords W H)
      (markTrail g trail) y x with h | h
  · rw [h]
    rcases markTrail_val trail g y x with h2 | h2
    · exact Or.inl h2
    · exact Or.inr (Or.inr h2)
  · exact Or.inr (Or.inl h)

/-- The source's generator-sum count equals the interior-cell Finset
count. -/
theorem countP_eq_specClaimedCount (W H : Int) (g : Grid) :
    ((interiorCoords W H).countP fun p =>
      decide (g p.2 p.1 = CLAIMED ∨ g p.2 p.1 = BORDER)) =
      specClaimedCount W H g := by
  rw [List.countP_eq_length_filter]
  rw [← List.toFinset_card_of_nodup
    (List.Nodup.filter _ (interiorCoords_nodup W H))]
  rw [List.toFinset_filter, interiorCoords_toFinset]
  unfold specClaimedCount
  refine congrArg Finset.card (Finset.filter_congr ?_)
  intro x _
  simp

/-! ## C6: the percentage formula -/

/-- C6: for every grid with non-zero interior, calculate_percentage returns
exactly (number of interior cells that are Claimed or Border) divided by
the interior cell count, times 100; it is a pure function of the live grid
(recomputed per call, nothing cached). -/
theorem claim_C6_percentage_formula (W H : Int) (g : Grid)
    (hpos : 0 < (W - 2) * (H - 2)) :
    calculate_percentage W H g =
      (specClaimedCount W H g : ℚ) / (((W - 2) * (H - 2) : Int) : ℚ) * 100 := by
  simp only [calculate_percentage]
  rw [if_pos hpos, countP_eq_specClaimedCount]

/-- Witness for C6 on the initial 4 x 4 board. -/
theorem claim_C6_percentage_formula_witness :
    calculate_percentage 4 4 (initialGrid 4 4) =
      (specClaimedCount 4 4 (initialGrid 4 4) : ℚ) /
        (((4 - 2) * (4 - 2) : Int) : ℚ) * 100 :=
  claim_C6_percentage_formula 4 4 (initialGrid 4 4) (by decide)

/-! ## C3: percentage range and monotonicity of claiming -/

/-- C3: the claimed percentage always lies in [0, 100]; the claiming pass
never turns a Claimed or Border cell back to anything else, so the
percentage is monotonically non-decreasing across trail closures. -/
theorem claim_C3_percentage_monotone (W H : Int) (g : Grid)
    (trail : List (Int × Int)) (enemies : List Enemy) :
    0 ≤ calculate_percentage W H g ∧
    calculate_percentage W H g ≤ 100 ∧
    (∀ y x, (g y x = CLAIMED ∨ g y x = BORDER) →
      (claim_territory W H g trail enemies y x = CLAIMED ∨
       claim_territory W H g trail enemies y x = BORDER)) ∧
    calculate_percentage W H g ≤
      calculate_percentage W H (claim_territory W H g trail enemies) := by
  have hcounted : ∀ y x, (g y x = CLAIMED ∨ g y x = BORDER) →
      (claim_territory W H g trail enemies y x = CLAIMED ∨
       claim_territory W H g trail enemies y x = BORDER) := by
    intro y x h
    rcases claim_territory_val W H g trail enemies y x with h2 | h2 | h2
    · rw [h2]; exact h
    · exact Or.inl h2
    · exact Or.inr h2
  have hmono : ((interiorCoords W H).countP fun p =>
        decide (g p.2 p.1 = CLAIMED ∨ g p.2 p.1 = BORDER)) ≤
      ((interiorCoords W H).countP fun p =>
        decide (claim_territory W H g trail enemies p.2 p.1 = CLAIMED ∨
          claim_territory W H g trail enemies p.2 p.1 = BORDER)) := by
    refine List.countP_mono_left fun p _ hp => ?_
    simp only [decide_eq_true_eq] at hp ⊢
    exact hcounted p.2 p.1 hp
  refine ⟨?_, ?_, hcounted, ?_⟩ <;> simp only [calculate_percentage]
  · by_cases htot : 0 < (W - 2) * (H - 2)
    · rw [if_pos htot]
      have ht : (0 : ℚ) < (((W - 2) * (H - 2) : Int) : ℚ) := by
        exact_mod_cast htot
      exact mul_nonneg (div_nonneg (Nat.cast_nonneg _) ht.le) (by norm_num)
    · rw [if_neg htot]
  · by_cases htot : 0 < (W - 2) * (H - 2)
    · rw [if_pos htot]
      have ht : (0 : ℚ) < (((W - 2) * (H - 2) : Int) : ℚ) := by
        exact_mod_cast htot
      have hc : (((interiorCoords W H).countP fun p =>
          decide (g p.2 p.1 = CLAIMED ∨ g p.2 p.1 = BORDER)) : ℚ) ≤
          (((W - 2) * (H - 2) : Int) : ℚ) := by
        exact_mod_cast claimedCount_le_total W H _ htot
      calc (((interiorCoords W H).countP fun p =>
            decide (g p.2 p.1 = CLAIMED ∨ g p.2 p.1 = BORDER)) : ℚ) /
            (((W - 2) * (H - 2) : Int) : ℚ) * 100
          ≤ 1 * 100 := by
            refine mul_le_mul_of_nonneg_right ?_ (by norm_num)
            exact (div_le_one ht).mpr hc
        _ = 100 := by norm_num
    · rw [if_neg htot]
      norm_num
  · by_cases htot : 0 < (W - 2) * (H - 2)
    · rw [if_pos htot, if_pos htot]
      have ht : (0 : ℚ) < (((W - 2) * (H - 2) : Int) : ℚ) := by
        exact_mod_cast htot
      refine mul_le_mul_of_nonneg_right ?_ (by norm_num)
      exact (div_le_div_iff_of_pos_right ht).mpr (by exact_mod_cast hmono)
    · rw [if_neg htot, if_neg htot]

/-! ## C10: the TRAIL code never reaches the grid -/

/-- Freshly reset states satisfy the trail invariant. -/
theorem reset_trail_inv (W H : Int) (es : List Enemy) :
    (∀ y x, (reset_game_state W H es).grid y x ≠ TRAIL) ∧
    ((reset_game_state W H es).drawing = true →
      ∀ c ∈ (reset_game_state W H es).trail,
        (reset_game_state W H es).grid c.2 c.1 = EMPTY) := by
  constructor
  · intro y x
    show initialGrid W H y x ≠ TRAIL
    unfold initialGrid
    split <;> decide
  · intro hd
    cases hd

/-- C10: in every reachable state no grid cell holds the TRAIL code (trail
membership lives only in the separate trail list), and while the machine is
Drawing every trail coordinate still has grid state Empty; trail cells
change grid state only at closure, when the claiming pass marks them
Border. -/
theorem claim_C10_trail_only_in_list (W H : Int) (s : GameState)
    (h : Reachable W H s) :
    (∀ y x, s.grid y x ≠ TRAIL) ∧
    (s.drawing = true → ∀ c ∈ s.trail, s.grid c.2 c.1 = EMPTY) := by
  induction h with
  | init es => exact reset_trail_inv W H es
  | reset s es _ _ _ => exact reset_trail_inv W H es
  | tick s _ hover hwon ih => exact ⟨ih.1, ih.2⟩
  | move s key hr ih =>
    obtain ⟨ihg, iht⟩ := ih
    unfold handle_movement
    by_cases hterm : s.game_over = true ∨ s.game_won = true
    · rw [if_pos hterm]; exact ⟨ihg, iht⟩
    · rw [if_neg hterm]
      cases key with
      | none => exact ⟨ihg, iht⟩
      | some d =>
        dsimp only
        by_cases hb : inBounds W H (destCoord s d).1 (destCoord s d).2
        · rw [if_pos hb]
          unfold process_movement
          by_cases h1 : s.drawing = false ∧
              get_cell_state W H s.grid (destCoord s d).1 (destCoord s d).2 =
                EMPTY
          · rw [if_pos h1]
            refine ⟨ihg, fun _ c hc => ?_⟩
            simp only [List.mem_singleton] at hc
            subst hc
            have h2 := h1.2
            unfold get_cell_state at h2
            rw [if_pos hb] at h2
            exact h2
          · rw [if_neg h1]
            by_cases h2 : s.drawing = true ∧
                ((destCoord s d).1, (destCoord s d).2) ∈ s.trail
            · rw [if_pos h2]
              exact ⟨ihg, fun hd c hc => iht h2.1 c hc⟩
            · rw [if_neg h2]
              by_cases h3 : s.drawing = true ∧
                  is_on_border_or_claimed W H s.grid (destCoord s d).1
                    (destCoord s d).2
              · rw [if_pos h3]
                have hclaim : ∀ y x,
                    claim_territory W H s.grid s.trail s.enemies y x ≠ TRAIL := by
                  intro y x
                  rcases claim_territory_val W H s.grid s.trail s.enemies y x
                    with hv | hv | hv
                  · rw [hv]; exact ihg y x
                  · rw [hv]; decide
                  · rw [hv]; decide
                dsimp only
                split
                · exact ⟨hclaim, fun _ c hc => absurd hc (List.not_mem_nil c)⟩
                · exact ⟨hclaim, fun _ c hc => absurd hc (List.not_mem_nil c)⟩
              · rw [if_neg h3]
                by_cases h4 : s.drawing = true ∧
                    get_cell_state W H s.grid (destCoord s d).1
                      (destCoord s d).2 = EMPTY
                · rw [if_pos h4]
                  refine ⟨ihg, fun _ c hc => ?_⟩
                  rcases List.mem_append.mp hc with hc | hc
                  · exact iht h4.1 c hc
                  · simp only [List.mem_singleton] at hc
                    subst hc
                    have h5 := h4.2
                    unfold get_cell_state at h5
                    rw [if_pos hb] at h5
                    exact h5
                · rw [if_neg h4]
                  by_cases h5 : s.drawing = false
                  · rw [if_pos h5]
                    exact ⟨ihg, fun hd c hc => iht hd c hc⟩
                  · rw [if_neg h5]
                    exact ⟨ihg, iht⟩
        · rw [if_neg hb]
          exact ⟨ihg, iht⟩

/-- Witness for C10 at a concrete reachable state. -/
theorem claim_C10_trail_only_in_list_witness :
    (∀ y x, (reset_game_state 6 5 []).grid y x ≠ TRAIL) ∧
    ((reset_game_state 6 5 []).drawing = true →
      ∀ c ∈ (reset_game_state 6 5 []).trail,
        (reset_game_state 6 5 []).grid c.2 c.1 = EMPTY) :=
  claim_C10_trail_only_in_list 6 5 (reset_game_state 6 5 []) (Reachable.init [])

/-! ## Connectivity lemmas -/

theorem neighbor_symm (ax ay bx bh : Int) (h : (bx, bh) ∈ neighborList ax ay) :
    (ax, ay) ∈ neighborList bx bh := by
  simp only [neighborList, List.mem_cons, Prod.mk.injEq, List.not_mem_nil,
    or_false] at h ⊢
  omega

theorem stepE_symm (W H : Int) (g : Grid) {a b : Int × Int}
    (h : stepE W H g a b) : stepE W H g b a := by
  obtain ⟨ha, hb, hn⟩ := h
  refine ⟨hb, ha, ?_⟩
  obtain ⟨ax, ay⟩ := a
  obtain ⟨bx, bh⟩ := b
  exact neighbor_symm ax ay bx bh hn

theorem reachE_symm (W H : Int) (g : Grid) {a b : Int × Int}
    (h : ReachE W H g a b) : ReachE W H g b a := by
  induction h with
  | refl => exact Relation.ReflTransGen.refl
  | tail _ hstep ih =>
    exact Relation.ReflTransGen.head (stepE_symm W H g hstep) ih

theorem reachE_empty_tail (W H : Int) (g : Grid) {a b : Int × Int}
    (h : ReachE W H g a b) : a = b ∨ emptyCellP W H g b := by
  induction h with
  | refl => exact Or.inl rfl
  | tail _ hstep _ => exact Or.inr hstep.2.1

theorem compMem_self (W H : Int) (g : Grid) {s : Int × Int}
    (h : emptyCellP W H g s) : compMem W H g s s :=
  ⟨h, Relation.ReflTransGen.refl⟩

theorem compMem_empty (W H : Int) (g : Grid) {s c : Int × Int}
    (h : compMem W H g s c) : emptyCellP W H g c := by
  rcases reachE_empty_tail W H g h.2 with rfl | h2
  · exact h.1
  · exact h2

theorem compMem_symm (W H : Int) (g : Grid) {s c : Int × Int}
    (h : compMem W H g s c) : compMem W H g c s :=
  ⟨compMem_empty W H g h, reachE_symm W H g h.2⟩

/-- Cells of one region have identical regions. -/
theorem compMem_congr (W H : Int) (g : Grid) {s c : Int × Int}
    (h : compMem W H g s c) (d : Int × Int) :
    compMem W H g c d ↔ compMem W H g s d := by
  constructor
  · intro hd
    exact ⟨h.1, Relation.ReflTransGen.trans h.2 hd.2⟩
  · intro hd
    exact ⟨compMem_empty W H g h,
      Relation.ReflTransGen.trans (reachE_symm W H g h.2) hd.2⟩

/-! ## Flood-fill loop: basic shape invariants -/

/-- In-bounds cells of the board, the cells the flood fill can visit. -/
def boundedCells (W H : Int) : Finset (Int × Int) :=
  Finset.Ico 0 W ×ˢ Finset.Ico 0 H

/-- Termination measure of the flood-fill loop. -/
def ffMeasure (W H : Int) (visited : Finset (Int × Int))
    (stack : List (Int × Int)) : Nat :=
  5 * ((boundedCells W H) \ visited).card + stack.length

theorem floodFillAux_cons_visited (W H : Int) (g : Grid) (fuel : Nat)
    (visited : Finset (Int × Int)) (x y : Int) (rest area : List (Int × Int))
    (hv : (x, y) ∈ visited) :
    floodFillAux W H g (fuel + 1) visited ((x, y) :: rest) area =
      floodFillAux W H g fuel visited rest area := by
  simp only [floodFillAux, if_pos hv]

theorem floodFillAux_cons_oob (W H : Int) (g : Grid) (fuel : Nat)
    (visited : Finset (Int × Int)) (x y : Int) (rest area : List (Int × Int))
    (hv : (x, y) ∉ visited) (hb : ¬ inBounds W H x y) :
    floodFillAux W H g (fuel + 1) visited ((x, y) :: rest) area =
      floodFillAux W H g fuel visited rest area := by
  simp only [floodFillAux, if_neg hv, if_pos hb]

theorem floodFillAux_cons_solid (W H : Int) (g : Grid) (fuel : Nat)
    (visited : Finset (Int × Int)) (x y : Int) (rest area : List (Int × Int))
    (hv : (x, y) ∉ visited) (hb : inBounds W H x y) (he : g y x ≠ EMPTY) :
    floodFillAux W H g (fuel + 1) visited ((x, y) :: rest) area =
      floodFillAux W H g fuel visited rest area := by
  simp only [floodFillAux, if_neg hv, if_neg (not_not_intro hb), if_pos he]

theorem floodFillAux_cons_visit (W H : Int) (g : Grid) (fuel : Nat)
    (visited : Finset (Int × Int)) (x y : Int) (rest area : List (Int × Int))
    (hv : (x, y) ∉ visited) (hb : inBounds W H x y) (he : g y x = EMPTY) :
    floodFillAux W H g (fuel + 1) visited ((x, y) :: rest) area =
      floodFillAux W H g fuel (insert (x, y) visited)
        ((neighborList x y).reverse ++ rest) (area ++ [(x, y)]) := by
  simp only [floodFillAux, if_neg hv, if_neg (not_not_intro hb)]
  rw [if_neg (show ¬ g y x ≠ EMPTY from not_not_intro he)]

/-- Fuel-independent invariants of the flood-fill loop: the visited set is
the collected area, it only grows, and it only ever holds in-bounds EMPTY
cells. -/
theorem floodFillAux_basic (W H : Int) (g : Grid) :
    ∀ (fuel : Nat) (visited : Finset (Int × Int))
      (stack area : List (Int × Int)),
      visited = area.toFinset →
      (∀ c ∈ visited, emptyCellP W H g c) →
      ((floodFillAux W H g fuel visited stack area).2 =
        (floodFillAux W H g fuel visited stack area).1.toFinset ∧
       visited ⊆ (floodFillAux W H g fuel visited stack area).2 ∧
       (∀ c ∈ (floodFillAux W H g fuel visited stack area).2,
         emptyCellP W H g c)) := by
  intro fuel
  induction fuel with
  | zero =>
    intro visited stack area hva hemp
    exact ⟨hva, Finset.Subset.refl _, hemp⟩
  | succ fuel ih =>
    intro visited stack area hva hemp
    rcases stack with _ | ⟨⟨x, y⟩, rest⟩
    · exact ⟨hva, Finset.Subset.refl _, hemp⟩
    · by_cases hv : (x, y) ∈ visited
      · rw [floodFillAux_cons_visited W H g fuel visited x y rest area hv]
        exact ih visited rest area hva hemp
      · by_cases hb : inBounds W H x y
        · by_cases he : g y x = EMPTY
          · rw [floodFillAux_cons_visit W H g fuel visited x y rest area
              hv hb he]
            have hva2 : insert (x, y) visited = (area ++ [(x, y)]).toFinset := by
              rw [List.toFinset_append, hva, Finset.insert_eq,
                Finset.union_comm]
              rfl
            have hemp2 : ∀ c ∈ insert (x, y) visited, emptyCellP W H g c := by
              intro c hc
              rcases Finset.mem_insert.mp hc with rfl | hc2
              · exact ⟨hb, he⟩
              · exact hemp c hc2
            obtain ⟨m1, m2, m3⟩ := ih (insert (x, y) visited)
              ((neighborList x y).reverse ++ rest) (area ++ [(x, y)]) hva2 hemp2
            exact ⟨m1, (Finset.subset_insert _ _).trans m2, m3⟩
          · rw [floodFillAux_cons_solid W H g fuel visited x y rest area
              hv hb he]
            exact ih visited rest area hva hemp
        · rw [floodFillAux_cons_oob W H g fuel visited x y rest area hv hb]
          exact ih visited rest area hva hemp

/-- Full correctness invariant of the flood-fill loop, by induction on the
fuel, which dominates the loop measure: the final visited set extends the
initial one, holds only empty in-bounds cells, is closed under empty
4-neighbours, contains only cells reachable from the initial stack, and
absorbs every empty stack entry. -/
theorem floodFillAux_spec (W H : Int) (g : Grid) :
    ∀ (fuel : Nat) (visited : Finset (Int × Int))
      (stack area : List (Int × Int)),
      ffMeasure W H visited stack ≤ fuel →
      (∀ c ∈ visited, emptyCellP W H g c) →
      (∀ c ∈ visited, ∀ d ∈ neighborList c.1 c.2,
        emptyCellP W H g d → d ∈ visited ∨ d ∈ stack) →
      (visited ⊆ (floodFillAux W H g fuel visited stack area).2 ∧
       (∀ c ∈ (floodFillAux W H g fuel visited stack area).2,
         emptyCellP W H g c) ∧
       (∀ c ∈ (floodFillAux W H g fuel visited stack area).2,
         ∀ d ∈ neighborList c.1 c.2, emptyCellP W H g d →
           d ∈ (floodFillAux W H g fuel visited stack area).2) ∧
       (∀ c ∈ (floodFillAux W H g fuel visited stack area).2,
         c ∈ visited ∨ ∃ t ∈ stack, ReachE W H g t c) ∧
       (∀ t ∈ stack, emptyCellP W H g t →
         t ∈ (floodFillAux W H g fuel visited stack area).2)) := by
  intro fuel
  induction fuel with
  | zero =>
    intro visited stack area hm hemp hfr
    have hstack : stack = [] := by
      have : stack.length = 0 := by
        unfold ffMeasure at hm
        omega
      exact List.length_eq_zero.mp this
    subst hstack
    refine ⟨Finset.Subset.refl _, hemp, ?_, fun c hc => Or.inl hc,
      fun t ht _ => absurd ht (List.not_mem_nil t)⟩
    intro c hc d hd hde
    rcases hfr c hc d hd hde with h | h
    · exact h
    · exact absurd h (List.not_mem_nil d)
  | succ fuel ih =>
    intro visited stack area hm hemp hfr
    rcases stack with _ | ⟨⟨x, y⟩, rest⟩
    · refine ⟨Finset.Subset.refl _, hemp, ?_, fun c hc => Or.inl hc,
        fun t ht _ => absurd ht (List.not_mem_nil t)⟩
      intro c hc d hd hde
      rcases hfr c hc d hd hde with h | h
      · exact h
      · exact absurd h (List.not_mem_nil d)
    · have hmrest : ffMeasure W H visited rest ≤ fuel := by
        unfold ffMeasure at hm ⊢
        simp only [List.length_cons] at hm
        omega
      by_cases hv : (x, y) ∈ visited
      · rw [floodFillAux_cons_visited W H g fuel visited x y rest area hv]
        have hfr2 : ∀ c ∈ visited, ∀ d ∈ neighborList c.1 c.2,
            emptyCellP W H g d → d ∈ visited ∨ d ∈ rest := by
          intro c hc d hd hde
          rcases hfr c hc d hd hde with h | h
          · exact Or.inl h
          · rcases List.mem_cons.mp h with rfl | h2
            · exact Or.inl hv
            · exact Or.inr h2
        obtain ⟨m1, m2, m3, m4, m5⟩ := ih visited rest area hmrest hemp hfr2
        refine ⟨m1, m2, m3, ?_, ?_⟩
        · intro c hc
          rcases m4 c hc with h | ⟨t, ht, hr⟩
          · exact Or.inl h
          · exact Or.inr ⟨t, List.mem_cons_of_mem _ ht, hr⟩
        · intro t ht hte
          rcases List.mem_cons.mp ht with rfl | ht2
          · exact m1 hv
          · exact m5 t ht2 hte
      · by_cases hb : inBounds W H x y
        · by_cases he : g y x = EMPTY
          · rw [floodFillAux_cons_visit W H g fuel visited x y rest area
              hv hb he]
            have hxyE : emptyCellP W H g (x, y) := ⟨hb, he⟩
            have hcb : (x, y) ∈ boundedCells W H \ visited := by
              refine Finset.mem_sdiff.mpr ⟨?_, hv⟩
              unfold boundedCells
              exact Finset.mem_product.mpr
                ⟨Finset.mem_Ico.mpr ⟨hb.1, hb.2.1⟩,
                 Finset.mem_Ico.mpr ⟨hb.2.2.1, hb.2.2.2⟩⟩
            have hm2 : ffMeasure W H (insert (x, y) visited)
                ((neighborList x y).reverse ++ rest) ≤ fuel := by
              unfold ffMeasure at hm ⊢
              have hcard : (boundedCells W H \ insert (x, y) visited).card =
                  (boundedCells W H \ visited).card - 1 := by
                rw [Finset.sdiff_insert]
                exact Finset.card_erase_of_mem hcb
              have hpos : 0 < (boundedCells W H \ visited).card :=
                Finset.card_pos.mpr ⟨(x, y), hcb⟩
              rw [hcard]
              simp only [List.length_append, List.length_reverse,
                List.length_cons, neighborList, List.length_cons,
                List.length_nil] at hm ⊢
              omega
            have hemp2 : ∀ c ∈ insert (x, y) visited, emptyCellP W H g c := by
              intro c hc
              rcases Finset.mem_insert.mp hc with rfl | hc2
              · exact hxyE
              · exact hemp c hc2
            have hfr2 : ∀ c ∈ insert (x, y) visited,
                ∀ d ∈ neighborList c.1 c.2, emptyCellP W H g d →
                  d ∈ insert (x, y) visited ∨
                  d ∈ (neighborList x y).reverse ++ rest := by
              intro c hc d hd hde
              rcases Finset.mem_insert.mp hc with rfl | hc2
              · exact Or.inr (List.mem_append_left _
                  (List.mem_reverse.mpr hd))
              · rcases hfr c hc2 d hd hde with h | h
                · exact Or.inl (Finset.mem_insert_of_mem h)
                · rcases List.mem_cons.mp h with rfl | h2
                  · exact Or.inl (Finset.mem_insert_self _ _)
                  · exact Or.inr (List.mem_append_right _ h2)
            obtain ⟨m1, m2, m3, m4, m5⟩ := ih (insert (x, y) visited)
              ((neighborList x y).reverse ++ rest) (area ++ [(x, y)])
              hm2 hemp2 hfr2
            refine ⟨(Finset.subset_insert _ _).trans m1, m2, m3, ?_, ?_⟩
            · intro c hc
              rcases m4 c hc with h | ⟨t, ht, hr⟩
              · rcases Finset.mem_insert.mp h with rfl | h2
                · exact Or.inr ⟨(x, y), List.mem_cons_self (x, y) rest,
                    Relation.ReflTransGen.refl⟩
                · exact Or.inl h2
              · rcases List.mem_append.mp ht with ht2 | ht2
                · have htn : t ∈ neighborList x y := List.mem_reverse.mp ht2
                  have htE : emptyCellP W H g t := by
                    rcases Relation.ReflTransGen.cases_head hr with rfl |
                      ⟨m, hstep, _⟩
                    · exact m2 _ hc
                    · exact hstep.1
                  exact Or.inr ⟨(x, y), List.mem_cons_self (x, y) rest,
                    Relation.ReflTransGen.head ⟨hxyE, htE, htn⟩ hr⟩
                · exact Or.inr ⟨t, List.mem_cons_of_mem _ ht2, hr⟩
            · intro t ht hte
              rcases List.mem_cons.mp ht with rfl | ht2
              · exact m1 (Finset.mem_insert_self _ _)
              · exact m5 t (List.mem_append_right _ ht2) hte
          · rw [floodFillAux_cons_solid W H g fuel visited x y rest area
              hv hb he]
            have hfr2 : ∀ c ∈ visited, ∀ d ∈ neighborList c.1 c.2,
                emptyCellP W H g d → d ∈ visited ∨ d ∈ rest := by
              intro c hc d hd hde
              rcases hfr c hc d hd hde with h | h
              · exact Or.inl h
              · rcases List.mem_cons.mp h with rfl | h2
                · exact absurd hde.2 he
                · exact Or.inr h2
            obtain ⟨m1, m2, m3, m4, m5⟩ := ih visited rest area hmrest
              hemp hfr2
            refine ⟨m1, m2, m3, ?_, ?_⟩
            · intro c hc
              rcases m4 c hc with h | ⟨t, ht, hr⟩
              · exact Or.inl h
              · exact Or.inr ⟨t, List.mem_cons_of_mem _ ht, hr⟩
            · intro t ht hte
              rcases List.mem_cons.mp ht with rfl | ht2
              · exact absurd hte.2 he
              · exact m5 t ht2 hte
        · rw [floodFillAux_cons_oob W H g fuel visited x y rest area hv hb]
          have hfr2 : ∀ c ∈ visited, ∀ d ∈ neighborList c.1 c.2,
              emptyCellP W H g d → d ∈ visited ∨ d ∈ rest := by
            intro c hc d hd hde
            rcases hfr c hc d hd hde with h | h
            · exact Or.inl h
            · rcases List.mem_cons.mp h with rfl | h2
              · exact absurd hde.1 hb
              · exact Or.inr h2
          obtain ⟨m1, m2, m3, m4, m5⟩ := ih visited rest area hmrest
            hemp hfr2
          refine ⟨m1, m2, m3, ?_, ?_⟩
          · intro c hc
            rcases m4 c hc with h | ⟨t, ht, hr⟩
            · exact Or.inl h
            · exact Or.inr ⟨t, List.mem_cons_of_mem _ ht, hr⟩
          · intro t ht hte
            rcases List.mem_cons.mp ht with rfl | ht2
            · exact absurd hte.1 hb
            · exact m5 t ht2 hte

theorem boundedCells_card (W H : Int) :
    (boundedCells W H).card = W.toNat * H.toNat := by
  unfold boundedCells
  rw [Finset.card_product, Int.card_Ico, Int.card_Ico]
  simp

/-- The chosen fuel dominates the initial loop measure of flood_fill. -/
theorem ffFuel_ge (W H : Int) (hW : 0 < W) (hH : 0 < H) (sx sy : Int) :
    ffMeasure W H ∅ [(sx, sy)] ≤ ffFuel W H := by
  obtain ⟨w, rfl⟩ : ∃ w : Nat, W = (w : Int) :=
    ⟨W.toNat, (Int.toNat_of_nonneg hW.le).symm⟩
  obtain ⟨k, rfl⟩ : ∃ k : Nat, H = (k : Int) :=
    ⟨H.toNat, (Int.toNat_of_nonneg hH.le).symm⟩
  unfold ffMeasure ffFuel
  rw [Finset.sdiff_empty, boundedCells_card]
  rw [Int.toNat_natCast, Int.toNat_natCast]
  rw [show (5 * (w : Int) * (k : Int) + 5) = ((5 * w * k + 5 : Nat) : Int) by
    push_cast
    ring]
  rw [Int.toNat_natCast]
  simp only [List.length_cons, List.length_nil]
  rw [show 5 * (w * k) + 1 = 5 * w * k + 1 by ring]
  exact Nat.add_le_add_left (by norm_num) (5 * w * k)

/-- The visited set of flood_fill is exactly the 4-connected empty region
of the seed. -/
theorem flood_fill_visited (W H : Int) (g : Grid) (sx sy : Int)
    (hW : 0 < W) (hH : 0 < H) (c : Int × Int) :
    (c ∈ (floodFillAux W H g (ffFuel W H) ∅ [(sx, sy)] []).2 ↔
      compMem W H g (sx, sy) c) := by
  obtain ⟨m1, m2, m3, m4, m5⟩ :=
    floodFillAux_spec W H g (ffFuel W H) ∅ [(sx, sy)] []
      (ffFuel_ge W H hW hH sx sy)
      (fun c hc => absurd hc (Finset.not_mem_empty c))
      (fun c hc => absurd hc (Finset.not_mem_empty c))
  constructor
  · intro hc
    have hreach : ReachE W H g (sx, sy) c := by
      rcases m4 c hc with h | ⟨t, ht, hr⟩
      · exact absurd h (Finset.not_mem_empty c)
      · rcases List.mem_cons.mp ht with rfl | h2
        · exact hr
        · exact absurd h2 (List.not_mem_nil t)
    refine ⟨?_, hreach⟩
    rcases Relation.ReflTransGen.cases_head hreach with rfl | ⟨m, hstep, _⟩
    · exact m2 _ hc
    · exact hstep.1
  · rintro ⟨hsE, hreach⟩
    induction hreach with
    | refl => exact m5 (sx, sy) (List.mem_cons_self _ _) hsE
    | tail hab hstep ih2 =>
      exact m3 _ ih2 _ hstep.2.2 hstep.2.1

/-- Area membership of flood_fill is region membership of the seed. -/
theorem flood_fill_area_iff (W H : Int) (g : Grid) (enemies : List Enemy)
    (sx sy : Int) (hW : 0 < W) (hH : 0 < H) (c : Int × Int) :
    (c ∈ (flood_fill W H g enemies sx sy).1 ↔
      compMem W H g (sx, sy) c) := by
  obtain ⟨b1, b2, b3⟩ := floodFillAux_basic W H g (ffFuel W H) ∅ [(sx, sy)] []
    (by simp) (fun c hc => absurd hc (Finset.not_mem_empty c))
  show c ∈ (floodFillAux W H g (ffFuel W H) ∅ [(sx, sy)] []).1 ↔ _
  rw [← List.mem_toFinset, ← b1]
  exact flood_fill_visited W H g sx sy hW hH c

/-- The has_enemy flag of flood_fill detects exactly the enemies whose
quantized cell lies in the seed's region. -/
theorem flood_fill_hasEnemy_iff (W H : Int) (g : Grid)
    (enemies : List Enemy) (sx sy : Int) (hW : 0 < W) (hH : 0 < H) :
    ((flood_fill W H g enemies sx sy).2 = true ↔
      ∃ e ∈ enemies, compMem W H g (sx, sy) (enemyCell e)) := by
  show (enemies.any fun e =>
    decide (enemyCell e ∈ (floodFillAux W H g (ffFuel W H) ∅
      [(sx, sy)] []).2)) = true ↔ _
  rw [List.any_eq_true]
  constructor
  · rintro ⟨e, he, hd⟩
    rw [decide_eq_true_eq, flood_fill_visited W H g sx sy hW hH] at hd
    exact ⟨e, he, hd⟩
  · rintro ⟨e, he, hd⟩
    refine ⟨e, he, ?_⟩
    rw [decide_eq_true_eq, flood_fill_visited W H g sx sy hW hH]
    exact hd

/-! ## The claiming scan: step equations and invariant -/

theorem claimScan_cons_skip (W H : Int) (enemies : List Enemy) (g : Grid)
    (p : Int × Int) (ps : List (Int × Int)) (hE : g p.2 p.1 ≠ EMPTY) :
    claimScan W H enemies g (p :: ps) = claimScan W H enemies g ps := by
  simp only [claimScan, if_neg hE]

theorem claimScan_cons_claim (W H : Int) (enemies : List Enemy) (g : Grid)
    (p : Int × Int) (ps : List (Int × Int)) (hE : g p.2 p.1 = EMPTY)
    (hcond : (flood_fill W H g enemies p.1 p.2).2 = false ∧
      (flood_fill W H g enemies p.1 p.2).1 ≠ []) :
    claimScan W H enemies g (p :: ps) =
      ((claimScan W H enemies
          (claimArea g (flood_fill W H g enemies p.1 p.2).1) ps).1,
       flood_fill W H g enemies p.1 p.2 ::
         (claimScan W H enemies
           (claimArea g (flood_fill W H g enemies p.1 p.2).1) ps).2) := by
  simp only [claimScan, if_pos hE, if_pos hcond]

theorem claimScan_cons_noclaim (W H : Int) (enemies : List Enemy) (g : Grid)
    (p : Int × Int) (ps : List (Int × Int)) (hE : g p.2 p.1 = EMPTY)
    (hcond : ¬ ((flood_fill W H g enemies p.1 p.2).2 = false ∧
      (flood_fill W H g enemies p.1 p.2).1 ≠ [])) :
    claimScan W H enemies g (p :: ps) =
      ((claimScan W H enemies g ps).1,
       flood_fill W H g enemies p.1 p.2 ::
         (claimScan W H enemies g ps).2) := by
  simp only [claimScan, if_pos hE, if_neg hcond]

/-- Invariant carried through the claiming scan, relative to the grid g1
that the scan started from: the live grid differs from g1 only by CLAIMED
writes, and every changed cell belongs to an enemy-free region of g1 that
has been claimed in full. -/
def ScanInv (W H : Int) (g1 : Grid) (enemies : List Enemy)
    (gcur : Grid) : Prop :=
  (∀ y x, gcur y x = g1 y x ∨ gcur y x = CLAIMED) ∧
  (∀ y x, gcur y x ≠ g1 y x →
    emptyCellP W H g1 (x, y) ∧
    (∀ e ∈ enemies, ¬ compMem W H g1 (x, y) (enemyCell e)) ∧
    (∀ d, compMem W H g1 (x, y) d → gcur d.2 d.1 = CLAIMED))

theorem scanInv_refl (W H : Int) (g1 : Grid) (enemies : List Enemy) :
    ScanInv W H g1 enemies g1 :=
  ⟨fun _ _ => Or.inl rfl, fun _ _ h => absurd rfl h⟩

theorem scanInv_empty_sub (W H : Int) (g1 : Grid) (enemies : List Enemy)
    (gcur : Grid) (hinv : ScanInv W H g1 enemies gcur) :
    ∀ c, emptyCellP W H gcur c → emptyCellP W H g1 c := by
  intro c hc
  rcases hinv.1 c.2 c.1 with h | h
  · exact ⟨hc.1, h.symm.trans hc.2⟩
  · exact absurd (h.symm.trans hc.2) (by decide)

/-- Inside the region of a still-empty cell, every cell is still empty in
the live grid (the scan only removes whole regions). -/
theorem scanInv_comp_empty (W H : Int) (g1 : Grid) (enemies : List Enemy)
    (gcur : Grid) (hinv : ScanInv W H g1 enemies gcur) (p : Int × Int)
    (hpE : emptyCellP W H gcur p) :
    ∀ m, compMem W H g1 p m → emptyCellP W H gcur m := by
  intro m hm
  have hmE1 : emptyCellP W H g1 m := compMem_empty W H g1 hm
  refine ⟨hmE1.1, ?_⟩
  by_contra hne
  have h1 : gcur m.2 m.1 ≠ g1 m.2 m.1 := fun heq =>
    hne (heq.trans hmE1.2)
  obtain ⟨_, _, hclaimed⟩ := hinv.2 m.2 m.1 h1
  have hcp : gcur p.2 p.1 = CLAIMED := hclaimed p (compMem_symm W H g1 hm)
  exact absurd (hcp.symm.trans hpE.2) (by decide)

/-- Regions of the live grid at a still-empty seed coincide with regions of
the scan's start grid. -/
theorem scanInv_comp_stable (W H : Int) (g1 : Grid) (enemies : List Enemy)
    (gcur : Grid) (hinv : ScanInv W H g1 enemies gcur) (p : Int × Int)
    (hpE : emptyCellP W H gcur p) (d : Int × Int) :
    compMem W H gcur p d ↔ compMem W H g1 p d := by
  constructor
  · rintro ⟨hp, hr⟩
    refine ⟨scanInv_empty_sub W H g1 enemies gcur hinv p hp, ?_⟩
    refine Relation.ReflTransGen.mono ?_ hr
    intro a b hab
    exact ⟨scanInv_empty_sub W H g1 enemies gcur hinv a hab.1,
      scanInv_empty_sub W H g1 enemies gcur hinv b hab.2.1, hab.2.2⟩
  · rintro ⟨hp1, hr⟩
    refine ⟨hpE, ?_⟩
    induction hr with
    | refl => exact Relation.ReflTransGen.refl
    | tail hab hstep ih =>
      refine Relation.ReflTransGen.tail ih ⟨?_, ?_, hstep.2.2⟩
      · exact scanInv_comp_empty W H g1 enemies gcur hinv p hpE _ ⟨hp1, hab⟩
      · exact scanInv_comp_empty W H g1 enemies gcur hinv p hpE _
          ⟨hp1, hab.tail hstep⟩

/-- Main induction over the scan: the invariant is preserved, and every
scanned coordinate whose g1-region is enemy-free ends up CLAIMED. -/
theorem claimScan_main (W H : Int) (g1 : Grid) (enemies : List Enemy)
    (hW : 0 < W) (hH : 0 < H) :
    ∀ (coords : List (Int × Int)) (gcur : Grid),
      (∀ p ∈ coords, inBounds W H p.1 p.2) →
      ScanInv W H g1 enemies gcur →
      ScanInv W H g1 enemies (claimScan W H enemies gcur coords).1 ∧
      (∀ p ∈ coords, emptyCellP W H g1 p →
        (∀ e ∈ enemies, ¬ compMem W H g1 p (enemyCell e)) →
        (claimScan W H enemies gcur coords).1 p.2 p.1 = CLAIMED) := by
  intro coords
  induction coords with
  | nil =>
    intro gcur _ hinv
    exact ⟨hinv, fun p hp => absurd hp (List.not_mem_nil p)⟩
  | cons p ps ih =>
    intro gcur hcb hinv
    have hpB : inBounds W H p.1 p.2 := hcb p (List.mem_cons_self _ _)
    have hcb2 : ∀ q ∈ ps, inBounds W H q.1 q.2 :=
      fun q hq => hcb q (List.mem_cons_of_mem _ hq)
    by_cases hE : gcur p.2 p.1 = EMPTY
    · have hpEc : emptyCellP W H gcur p := ⟨hpB, hE⟩
      have hpE1 : emptyCellP W H g1 p :=
        scanInv_empty_sub W H g1 enemies gcur hinv p hpEc
      have hareaIff : ∀ c, c ∈ (flood_fill W H gcur enemies p.1 p.2).1 ↔
          compMem W H g1 p c := by
        intro c
        rw [flood_fill_area_iff W H gcur enemies p.1 p.2 hW hH c]
        exact scanInv_comp_stable W H g1 enemies gcur hinv p hpEc c
      have hneIff : (flood_fill W H gcur enemies p.1 p.2).2 = true ↔
          ∃ e ∈ enemies, compMem W H g1 p (enemyCell e) := by
        rw [flood_fill_hasEnemy_iff W H gcur enemies p.1 p.2 hW hH]
        exact exists_congr fun e => and_congr_right fun _ =>
          scanInv_comp_stable W H g1 enemies gcur hinv p hpEc _
      have hpmem : p ∈ (flood_fill W H gcur enemies p.1 p.2).1 :=
        (hareaIff p).mpr (compMem_self W H g1 hpE1)
      have hne : (flood_fill W H gcur enemies p.1 p.2).1 ≠ [] := by
        intro h0
        rw [h0] at hpmem
        exact absurd hpmem (List.not_mem_nil p)
      by_cases hEn : (flood_fill W H gcur enemies p.1 p.2).2 = false
      · have hfree : ∀ e ∈ enemies, ¬ compMem W H g1 p (enemyCell e) := by
          intro e he hc
          have h2 : (flood_fill W H gcur enemies p.1 p.2).2 = true :=
            hneIff.mpr ⟨e, he, hc⟩
          rw [hEn] at h2
          cases h2
        have hinv2 : ScanInv W H g1 enemies
            (claimArea gcur (flood_fill W H gcur enemies p.1 p.2).1) := by
          constructor
          · intro y x
            rcases claimArea_val (flood_fill W H gcur enemies p.1 p.2).1
                gcur y x with h | h
            · rw [h]; exact hinv.1 y x
            · exact Or.inr h
          · intro y x hne2
            by_cases hmem : (x, y) ∈ (flood_fill W H gcur enemies p.1 p.2).1
            · have hcomp : compMem W H g1 p (x, y) := (hareaIff _).mp hmem
              refine ⟨compMem_empty W H g1 hcomp, ?_, ?_⟩
              · intro e he hc
                exact hfree e he ((compMem_congr W H g1 hcomp _).mp hc)
              · intro d hd
                have hd2 : compMem W H g1 p d :=
                  (compMem_congr W H g1 hcomp d).mp hd
                exact claimArea_mem (flood_fill W H gcur enemies p.1 p.2).1
                  gcur d ((hareaIff d).mpr hd2)
            · have hg : claimArea gcur
                  (flood_fill W H gcur enemies p.1 p.2).1 y x = gcur y x :=
                claimArea_not_mem (flood_fill W H gcur enemies p.1 p.2).1
                  gcur (x, y) hmem
              rw [hg] at hne2
              obtain ⟨he1, he2, he3⟩ := hinv.2 y x hne2
              refine ⟨he1, he2, fun d hd => ?_⟩
              rcases claimArea_val (flood_fill W H gcur enemies p.1 p.2).1
                  gcur d.2 d.1 with h | h
              · rw [h]; exact he3 d hd
              · exact h
        obtain ⟨f1, f2⟩ := ih
          (claimArea gcur (flood_fill W H gcur enemies p.1 p.2).1) hcb2 hinv2
        rw [claimScan_cons_claim W H enemies gcur p ps hE ⟨hEn, hne⟩]
        refine ⟨f1, ?_⟩
        intro q hq hqE hqFree
        rcases List.mem_cons.mp hq with rfl | hq2
        · have hclA : claimArea gcur (flood_fill W H gcur enemies q.1 q.2).1
              q.2 q.1 = CLAIMED :=
            claimArea_mem (flood_fill W H gcur enemies q.1 q.2).1 gcur q
              ((hareaIff q).mpr (compMem_self W H g1 hpE1))
          rcases claimScan_grid_val W H enemies ps
              (claimArea gcur (flood_fill W H gcur enemies q.1 q.2).1)
              q.2 q.1 with h | h
          · rw [h]; exact hclA
          · exact h
        · exact f2 q hq2 hqE hqFree
      · have hcond : ¬ ((flood_fill W H gcur enemies p.1 p.2).2 = false ∧
            (flood_fill W H gcur enemies p.1 p.2).1 ≠ []) :=
          fun hc => hEn hc.1
        obtain ⟨f1, f2⟩ := ih gcur hcb2 hinv
        rw [claimScan_cons_noclaim W H enemies gcur p ps hE hcond]
        refine ⟨f1, ?_⟩
        intro q hq hqE hqFree
        rcases List.mem_cons.mp hq with rfl | hq2
        · have htrue : (flood_fill W H gcur enemies q.1 q.2).2 = true := by
            rcases Bool.eq_false_or_eq_true
                (flood_fill W H gcur enemies q.1 q.2).2 with h | h
            · exact h
            · exact absurd h hEn
          obtain ⟨e, he, hc⟩ := hneIff.mp htrue
          exact absurd hc (hqFree e he)
        · exact f2 q hq2 hqE hqFree
    · obtain ⟨f1, f2⟩ := ih gcur hcb2 hinv
      rw [claimScan_cons_skip W H enemies gcur p ps hE]
      refine ⟨f1, ?_⟩
      intro q hq hqE hqFree
      rcases List.mem_cons.mp hq with rfl | hq2
      · have hcl : gcur q.2 q.1 = CLAIMED := by
          rcases hinv.1 q.2 q.1 with h | h
          · exact absurd (h.trans hqE.2) hE
          · exact h
        rcases claimScan_grid_val W H enemies ps gcur q.2 q.1 with h | h
        · rw [h]; exact hcl
        · exact h
      · exact f2 q hq2 hqE hqFree

/-- A region equals the component of any of its cells. -/
theorem isRegion_comp (W H : Int) (g1 : Grid) (R : Finset (Int × Int))
    (hR : isRegion W H g1 R) (c : Int × Int) (hc : c ∈ R) (d : Int × Int) :
    compMem W H g1 c d ↔ d ∈ R := by
  obtain ⟨_, hRemp, hRclosed, hRconn⟩ := hR
  constructor
  · rintro ⟨hcE, hr⟩
    induction hr with
    | refl => exact hc
    | tail hab hstep ih => exact hRclosed _ ih _ hstep.2.2 hstep.2.1
  · intro hd
    exact ⟨hRemp c hc, hRconn c hc d hd⟩

theorem mem_ringCells (W H : Int) (c : Int × Int) :
    c ∈ ringCells W H ↔ inBounds W H c.1 c.2 ∧
      (c.1 = 0 ∨ c.1 = W - 1 ∨ c.2 = 0 ∨ c.2 = H - 1) := by
  unfold ringCells
  rw [Finset.mem_filter, Finset.mem_product, Finset.mem_Ico, Finset.mem_Ico]
  unfold inBounds
  tauto

/-! ## C1: region claiming is exactly enemy-freeness -/

/-- C1: after the pass marks every trail cell Border, a maximal 4-connected
region of empty interior cells is claimed in full exactly when no enemy's
cell-quantized position lies in it; a region holding such an enemy position
is left entirely Empty; and every trail cell ends as Border.  The hypotheses
say that R is such a region of the trail-marked grid and that the outer ring
carries no empty cells (true in every reachable game state). -/
theorem claim_C1_region_claiming (W H : Int) (g : Grid)
    (trail : List (Int × Int)) (enemies : List Enemy)
    (R : Finset (Int × Int))
    (hring : ∀ c ∈ ringCells W H, markTrail g trail c.2 c.1 ≠ EMPTY)
    (hR : isRegion W H (markTrail g trail) R) :
    ((∀ c ∈ R, claim_territory W H g trail enemies c.2 c.1 = CLAIMED) ↔
      ∀ e ∈ enemies, enemyCell e ∉ R) ∧
    ((∃ e ∈ enemies, enemyCell e ∈ R) →
      ∀ c ∈ R, claim_territory W H g trail enemies c.2 c.1 = EMPTY) ∧
    (∀ c ∈ trail, claim_territory W H g trail enemies c.2 c.1 = BORDER) := by
  obtain ⟨⟨c0, hc0⟩, hRemp, hRclosed, hRconn⟩ := hR
  have hR2 : isRegion W H (markTrail g trail) R :=
    ⟨⟨c0, hc0⟩, hRemp, hRclosed, hRconn⟩
  have hW : 0 < W := by
    obtain ⟨h1, h2, h3, h4⟩ := (hRemp c0 hc0).1
    omega
  have hH : 0 < H := by
    obtain ⟨h1, h2, h3, h4⟩ := (hRemp c0 hc0).1
    omega
  have hint : ∀ c ∈ R, 1 ≤ c.1 ∧ c.1 < W - 1 ∧ 1 ≤ c.2 ∧ c.2 < H - 1 := by
    intro c hc
    obtain ⟨hb, hcE⟩ := hRemp c hc
    obtain ⟨h1, h2, h3, h4⟩ := hb
    by_contra hcon
    have hcr : c ∈ ringCells W H := by
      rw [mem_ringCells]
      exact ⟨⟨h1, h2, h3, h4⟩, by omega⟩
    exact hring c hcr hcE
  have hICb : ∀ p ∈ interiorCoords W H, inBounds W H p.1 p.2 := by
    intro p hp
    rw [mem_interiorCoords] at hp
    refine ⟨?_, ?_, ?_, ?_⟩ <;> omega
  obtain ⟨finv, fdone⟩ := claimScan_main W H (markTrail g trail) enemies hW hH
    (interiorCoords W H) (markTrail g trail) hICb
    (scanInv_refl W H (markTrail g trail) enemies)
  have hEmptyCase : (∃ e ∈ enemies, enemyCell e ∈ R) →
      ∀ c ∈ R, claim_territory W H g trail enemies c.2 c.1 = EMPTY := by
    rintro ⟨e, he, heR⟩ c hc
    unfold claim_territory
    rcases finv.1 c.2 c.1 with h | h
    · rw [h]
      exact (hRemp c hc).2
    · have hne : (claimScan W H enemies (markTrail g trail)
          (interiorCoords W H)).1 c.2 c.1 ≠ markTrail g trail c.2 c.1 := by
        rw [h, (hRemp c hc).2]
        decide
      obtain ⟨_, hfree, _⟩ := finv.2 c.2 c.1 hne
      exact absurd ((isRegion_comp W H (markTrail g trail) R hR2 c hc
        (enemyCell e)).mpr heR) (hfree e he)
  refine ⟨⟨?_, ?_⟩, hEmptyCase, ?_⟩
  · intro hall e he heR
    have h1 := hall (enemyCell e) heR
    have h2 := hEmptyCase ⟨e, he, heR⟩ (enemyCell e) heR
    exact absurd (h1.symm.trans h2) (by decide)
  · intro hfree c hc
    unfold claim_territory
    refine fdone c ?_ (hRemp c hc) ?_
    · rw [mem_interiorCoords]
      exact hint c hc
    · intro e he hcomp
      exact hfree e he ((isRegion_comp W H (markTrail g trail) R hR2 c hc
        (enemyCell e)).mp hcomp)
  · intro c hc
    have hg1 : markTrail g trail c.2 c.1 = BORDER := markTrail_mem trail g c hc
    unfold claim_territory
    rcases finv.1 c.2 c.1 with h | h
    · rw [h]
      exact hg1
    · have hne : (claimScan W H enemies (markTrail g trail)
          (interiorCoords W H)).1 c.2 c.1 ≠ markTrail g trail c.2 c.1 := by
        rw [h, hg1]
        decide
      obtain ⟨hEc, _, _⟩ := finv.2 c.2 c.1 hne
      exact absurd (hEc.2.symm.trans hg1) (by decide)

/-- Concrete 5 x 5 board for the C1 witness: Border ring, Claimed interior,
one Empty cell at (2,2). -/
def gC1 : Grid := fun y x =>
  if y = 0 ∨ y = 4 ∨ x = 0 ∨ x = 4 then BORDER
  else if y = 2 ∧ x = 2 then EMPTY else CLAIMED

/-- Witness for C1: with no enemies, the singleton region at (2,2) is
claimed by the pass. -/
theorem claim_C1_region_claiming_witness :
    claim_territory 5 5 gC1 [] [] 2 2 = CLAIMED := by
  have hconn : ∀ c ∈ ({((2 : Int), (2 : Int))} : Finset (Int × Int)),
      ∀ d ∈ ({((2 : Int), (2 : Int))} : Finset (Int × Int)),
        ReachE 5 5 (markTrail gC1 []) c d := by
    intro c hc d hd
    have hc2 : c = (2, 2) := Finset.mem_singleton.mp hc
    have hd2 : d = (2, 2) := Finset.mem_singleton.mp hd
    subst hc2
    subst hd2
    exact Relation.ReflTransGen.refl
  exact (claim_C1_region_claiming 5 5 gC1 [] [] {((2 : Int), (2 : Int))}
    (by decide)
    ⟨⟨(2, 2), by decide⟩, by decide, by decide, hconn⟩).1.mpr
    (fun e he => absurd he (List.not_mem_nil e)) (2, 2) (by decide)

/-! ## C9: disjointness of areas during one pass -/

/-- Cells collected by one flood_fill call are empty in its grid. -/
theorem flood_fill_area_empty (W H : Int) (g : Grid) (enemies : List Enemy)
    (sx sy : Int) :
    ∀ c ∈ (flood_fill W H g enemies sx sy).1, emptyCellP W H g c := by
  obtain ⟨b1, b2, b3⟩ := floodFillAux_basic W H g (ffFuel W H) ∅ [(sx, sy)] []
    (by simp) (fun c hc => absurd hc (Finset.not_mem_empty c))
  intro c hc
  refine b3 c ?_
  rw [b1]
  exact List.mem_toFinset.mpr hc

/-- Every area logged by the scan consists of cells that were still EMPTY
in the grid the scan started from. -/
theorem claimScan_log_empty (W H : Int) (enemies : List Enemy) :
    ∀ (coords : List (Int × Int)) (gcur : Grid),
      ∀ r ∈ (claimScan W H enemies gcur coords).2, ∀ c ∈ r.1,
        gcur c.2 c.1 = EMPTY := by
  intro coords
  induction coords with
  | nil =>
    intro gcur r hr
    simp only [claimScan] at hr
    exact absurd hr (List.not_mem_nil r)
  | cons p ps ih =>
    intro gcur r hr c hc
    by_cases hE : gcur p.2 p.1 = EMPTY
    · by_cases hcond : (flood_fill W H gcur enemies p.1 p.2).2 = false ∧
          (flood_fill W H gcur enemies p.1 p.2).1 ≠ []
      · rw [claimScan_cons_claim W H enemies gcur p ps hE hcond] at hr
        rcases List.mem_cons.mp hr with rfl | hr2
        · exact (flood_fill_area_empty W H gcur enemies p.1 p.2 c hc).2
        · have h2 := ih
            (claimArea gcur (flood_fill W H gcur enemies p.1 p.2).1)
            r hr2 c hc
          rcases claimArea_val (flood_fill W H gcur enemies p.1 p.2).1
              gcur c.2 c.1 with h | h
          · exact h.symm.trans h2
          · exact absurd (h.symm.trans h2) (by decide)
      · rw [claimScan_cons_noclaim W H enemies gcur p ps hE hcond] at hr
        rcases List.mem_cons.mp hr with rfl | hr2
        · exact (flood_fill_area_empty W H gcur enemies p.1 p.2 c hc).2
        · exact ih gcur r hr2 c hc
    · rw [claimScan_cons_skip W H enemies gcur p ps hE] at hr
      exact ih gcur r hr c hc

/-- The areas the scan actually claims (has_enemy false, nonempty) are
pairwise disjoint. -/
theorem claimScan_claimed_pairwise (W H : Int) (enemies : List Enemy) :
    ∀ (coords : List (Int × Int)) (gcur : Grid),
      List.Pairwise (fun a b => ∀ x ∈ a, x ∉ b)
        (((claimScan W H enemies gcur coords).2.filter
          fun r => decide (r.2 = false ∧ r.1 ≠ [])).map fun r => r.1) := by
  intro coords
  induction coords with
  | nil =>
    intro gcur
    simp [claimScan]
  | cons p ps ih =>
    intro gcur
    by_cases hE : gcur p.2 p.1 = EMPTY
    · by_cases hcond : (flood_fill W H gcur enemies p.1 p.2).2 = false ∧
          (flood_fill W H gcur enemies p.1 p.2).1 ≠ []
      · rw [claimScan_cons_claim W H enemies gcur p ps hE hcond]
        simp only [List.filter_cons, decide_eq_true hcond, if_true,
          List.map_cons]
        refine List.Pairwise.cons ?_
          (ih (claimArea gcur (flood_fill W H gcur enemies p.1 p.2).1))
        intro B hB x hxA hxB
        obtain ⟨rB, hrB, rfl⟩ := List.mem_map.mp hB
        have hrB2 : rB ∈ (claimScan W H enemies
            (claimArea gcur (flood_fill W H gcur enemies p.1 p.2).1) ps).2 :=
          List.mem_of_mem_filter hrB
        have hEmB := claimScan_log_empty W H enemies ps
          (claimArea gcur (flood_fill W H gcur enemies p.1 p.2).1)
          rB hrB2 x hxB
        have hCl : claimArea gcur (flood_fill W H gcur enemies p.1 p.2).1
            x.2 x.1 = CLAIMED :=
          claimArea_mem (flood_fill W H gcur enemies p.1 p.2).1 gcur x hxA
        exact absurd (hCl.symm.trans hEmB) (by decide)
      · rw [claimScan_cons_noclaim W H enemies gcur p ps hE hcond]
        simp only [List.filter_cons, decide_eq_false hcond,
          Bool.false_eq_true, if_false]
        exact ih gcur
    · rw [claimScan_cons_skip W H enemies gcur p ps hE]
      exact ih gcur

/-- Concrete 5 x 5 board for the C9 counterexample: Border ring, Claimed
interior except the two-cell empty region (1,1)-(2,1). -/
def gC9 : Grid := fun y x =>
  if y = 0 ∨ y = 4 ∨ x = 0 ∨ x = 4 then BORDER
  else if y = 1 ∧ (x = 1 ∨ x = 2) then EMPTY else CLAIMED

/-- Enemy sitting at pixel (15, 15), i.e. cell (1, 1), inside that
region. -/
def eC9 : Enemy := { x := 15, y := 15, vx := 2, vy := 2, radius := 8 }

unseal Rat.mul Rat.inv in
/-- Counterexample to C9 as stated: with one enemy inside a two-cell empty
region, the claiming pass runs a flood fill from each still-Empty seed of
that region, so the pass discovers the same region twice and the discovered
areas are not pairwise disjoint (the cells are visited by two flood-fill
runs). -/
theorem claim_C9_counterexample :
    ¬ List.Pairwise (fun a b => ∀ x ∈ a, x ∉ b)
      (((claimScan 5 5 [eC9] (markTrail gC9 []) (interiorCoords 5 5)).2).map
        fun r => r.1) := by
  intro hp
  have hlog : ((claimScan 5 5 [eC9] (markTrail gC9 [])
      (interiorCoords 5 5)).2).map (fun r => r.1) =
      ([[(1, 1), (2, 1)], [(2, 1), (1, 1)]] : List (List (Int × Int))) := by
    decide
  rw [hlog] at hp
  have h2 := (List.pairwise_cons.mp hp).1 [(2, 1), (1, 1)]
    (List.mem_cons_self _ _) (1, 1) (by decide)
  exact h2 (by decide)

/-- C9 (amended): within one claiming pass the areas that are actually
claimed (flood-fill results with no enemy and a nonempty area) are pairwise
disjoint, so claimed-area growth per closure never counts a cell twice;
a region containing an enemy, however, stays Empty and is re-discovered by
one flood-fill run per still-Empty seed the scan reaches. -/
theorem claim_C9_claimed_areas_disjoint (W H : Int) (g : Grid)
    (trail : List (Int × Int)) (enemies : List Enemy) :
    List.Pairwise (fun a b => ∀ x ∈ a, x ∉ b)
      (((claimScan W H enemies (markTrail g trail)
          (interiorCoords W H)).2.filter
        fun r => decide (r.2 = false ∧ r.1 ≠ [])).map fun r => r.1) :=
  claimScan_claimed_pairwise W H enemies (interiorCoords W H)
    (markTrail g trail)
